import Mathlib

/-!
# Verification of the Talek core against its specification

Shallow embedding of the Talek repository core:
* `libtalek` client handle (`nextBuckets`, `generatePoll`, `Decrypt`,
  `retrieveResponse`) from `src/unnamed/part_000`;
* the replica server (`Write`, `GetLayout`, `ApplyLayout`) from
  `src/server/replica/server.go`;
* the cuckoo table from `src/cuckootable/cuckootable.go`;
* the PIR shard batch read (modelled from the spec; only its test
  `HelperTestShardRead` is in the sources).

Machine integers are modelled as `Nat` (bytes are `Nat` values taken mod 256
where the code produces them); Go maps are functions into `Option`; fallible
operations return `Option` or `Except`.  External collaborators (siphash, the
DRBG, ed25519 and NaCl box) are taken as parameters, so every theorem holds
for all of their implementations.
-/

/-! ## Byte-vector helpers -/

/-- Byte-wise XOR of two byte vectors (the Go loops
`v[k] ^= w[k]` over `k < len(w)`; both operands always have equal length
where the code uses this). -/
def zipXor (a b : List Nat) : List Nat := List.zipWith (fun x y => x ^^^ y) a b

/-- XOR of a list of equal-length byte vectors, starting from the all-zero
vector of length `len`. -/
def xorAll (len : Nat) (l : List (List Nat)) : List Nat :=
  l.foldr zipXor (List.replicate len 0)

/-- Bit `j` of a byte vector, with the bit layout used throughout the Go code:
bit `j % 8` of byte `j / 8`. -/
def bitAt (v : List Nat) (j : Nat) : Bool :=
  Nat.testBit (v.getD (j / 8) 0) (j % 8)

theorem zipXor_comm (a b : List Nat) : zipXor a b = zipXor b a := by
  induction a generalizing b with
  | nil => cases b <;> rfl
  | cons x xs ih =>
    cases b with
    | nil => rfl
    | cons y ys =>
      show (x ^^^ y) :: zipXor xs ys = (y ^^^ x) :: zipXor ys xs
      rw [Nat.xor_comm, ih ys]

theorem zipXor_assoc (a b c : List Nat) :
    zipXor (zipXor a b) c = zipXor a (zipXor b c) := by
  induction a generalizing b c with
  | nil => rfl
  | cons x xs ih =>
    cases b with
    | nil => rfl
    | cons y ys =>
      cases c with
      | nil => rfl
      | cons z zs =>
        show ((x ^^^ y) ^^^ z) :: zipXor (zipXor xs ys) zs =
          (x ^^^ (y ^^^ z)) :: zipXor xs (zipXor ys zs)
        rw [Nat.xor_assoc, ih ys zs]

theorem zipXor_length (a b : List Nat) :
    (zipXor a b).length = min a.length b.length := by
  simp [zipXor]

theorem zipXor_zero (a : List Nat) (len : Nat) (h : a.length = len) :
    zipXor a (List.replicate len 0) = a := by
  induction a generalizing len with
  | nil => rfl
  | cons x xs ih =>
    cases len with
    | zero => simp at h
    | succ n =>
      show (x ^^^ 0) :: zipXor xs (List.replicate n 0) = x :: xs
      rw [Nat.xor_zero, ih n (by simpa using h)]

theorem zipXor_cancel (r x : List Nat) (h : r.length = x.length) :
    zipXor r (zipXor r x) = x := by
  induction r generalizing x with
  | nil => cases x with
           | nil => rfl
           | cons y ys => simp at h
  | cons a as ih =>
    cases x with
    | nil => simp at h
    | cons y ys =>
      show (a ^^^ (a ^^^ y)) :: zipXor as (zipXor as ys) = y :: ys
      rw [← Nat.xor_assoc, Nat.xor_self, Nat.zero_xor,
        ih ys (by simpa using h)]

/-! ## libtalek: DRBG, handle, poll generation, decryption -/

/-- Model of the external `drbg.HashDrbg`: an arbitrary byte stream and a
position.  `FillBytes` hands out the next `n` bytes of the stream. -/
structure Drbg where
  stream : Nat → Nat
  pos : Nat

/-- `drbg.FillBytes` on an `n`-byte buffer: returns the bytes written and the
advanced generator state. -/
def fillBytes (d : Drbg) (n : Nat) : List Nat × Drbg :=
  ((List.range n).map (fun i => d.stream (d.pos + i) % 256),
   { d with pos := d.pos + n })

theorem fillBytes_length (d : Drbg) (n : Nat) : (fillBytes d n).1.length = n := by
  simp [fillBytes]

/-- `drbg.SeedLength` (external constant; its value is irrelevant to every
claim below). -/
def SeedLength : Nat := 32

/-- `common.PirArgs`: one trust domain's share of a read request. -/
structure PirArgs where
  RequestVector : List Nat
  PadSeed : List Nat
deriving DecidableEq

/-- `common.ReadArgs`: a read request split across the trust domains. -/
structure ReadArgs where
  TD : List PirArgs
deriving DecidableEq

/-- `libtalek.Handle`.  The two seeds are modelled as siphash key pairs; the
hash function itself is a parameter of `nextBuckets`. -/
structure Handle where
  drbg : Drbg
  Seed1 : Nat × Nat
  Seed2 : Nat × Nat
  SharedSecret : Option (List Nat)
  SigningPublicKey : Option (List Nat)
  Seqno : Nat

/-- `binary.PutUvarint` byte sequence of `x` (7-bit groups, little end first,
high bit marks continuation).  The fuel argument is always at least the
number of groups, so the fallback branch is never reached from
`uvarintBytes`. -/
def uvarintAux : Nat → Nat → List Nat
  | 0, x => [x % 128]
  | fuel + 1, x => if x < 128 then [x] else (x % 128 + 128) :: uvarintAux fuel (x / 128)

/-- The bytes `binary.PutUvarint` writes for `x`. -/
def uvarintBytes (x : Nat) : List Nat := uvarintAux x x

/-- The 24-byte buffer obtained by `binary.PutUvarint` of `x` into a zeroed
24-byte array (the nonce and the hashed sequence-number encoding in the
source). -/
def uvarint24 (x : Nat) : List Nat :=
  (uvarintBytes x ++ List.replicate 24 0).take 24

/-- `x` encoded as a fixed-width (24-byte) little-endian value: what the spec
asserts the nonce is. -/
def le24 (x : Nat) : List Nat :=
  (List.range 24).map (fun i => x / 2 ^ (8 * i) % 256)

/-- `Handle.nextBuckets`: the deterministic bucket pair for the handle's
current `Seqno`.  `sip` is the external `siphash.Hash`. -/
def nextBuckets (sip : Nat → Nat → List Nat → Nat) (h : Handle)
    (numBuckets : Nat) : Nat × Nat :=
  let seqNoBytes := uvarint24 h.Seqno
  let b1 := sip h.Seed1.1 h.Seed1.2 seqNoBytes
  let b2 := sip h.Seed2.1 h.Seed2.2 seqNoBytes
  (b1 % numBuckets, b2 % numBuckets)

/-- The one-hot request vector the source builds:
`make([]byte, vecLen)` followed by `v[b/8] |= 1 << (b%8)`. -/
def oneHotVec (vecLen b : Nat) : List Nat :=
  let v := List.replicate vecLen 0
  v.set (b / 8) ((v.getD (b / 8) 0) ||| (1 <<< (b % 8)))

/-- The masking loop of `generatePoll` (`for j := 1; j < num; j++`): each
iteration draws a pseudorandom request vector and pad seed for trust domain
`j`, and XORs the vector into the first domain's accumulating vector.
Returns the final first-domain vector, the later domains' `PirArgs`, and the
advanced DRBG. -/
def pollLoop (d : Drbg) (vecLen : Nat) (acc : List Nat) :
    Nat → List Nat × List PirArgs × Drbg
  | 0 => (acc, [], d)
  | count + 1 =>
    let rv := fillBytes d vecLen
    let ps := fillBytes rv.2 SeedLength
    let rest := pollLoop ps.2 vecLen (zipXor acc rv.1) count
    (rest.1, ⟨rv.1, ps.1⟩ :: rest.2.1, rest.2.2)

/-- Build one `ReadArgs` of `generatePoll` for target bucket `b`:
the first trust domain gets the one-hot vector masked by all later domains'
pseudorandom vectors. -/
def buildReadArgs (d : Drbg) (vecLen numTD b : Nat) : ReadArgs × Drbg :=
  let v0 := oneHotVec vecLen b
  let p0 := fillBytes d SeedLength
  let rest := pollLoop p0.2 vecLen v0 (numTD - 1)
  (⟨⟨rest.1, p0.1⟩ :: rest.2.1⟩, rest.2.2)

/-- `Handle.generatePoll`.  `numTD` is `len(config.TrustDomains)`; the Go code
faults when it is zero, so every theorem below assumes at least one trust
domain.  Returns the two `ReadArgs` and the advanced DRBG state, or `none`
for the not-initialized error. -/
def generatePoll (sip : Nat → Nat → List Nat → Nat) (h : Handle)
    (numBuckets numTD : Nat) : Option (ReadArgs × ReadArgs × Drbg) :=
  if h.SharedSecret.isNone || h.SigningPublicKey.isNone then none
  else
    let bs := nextBuckets sip h numBuckets
    let vecLen := (numBuckets + 7) / 8
    let a0 := buildReadArgs h.drbg vecLen numTD bs.1
    let a1 := buildReadArgs a0.2 vecLen numTD bs.2
    some (a0.1, a1.1, a1.2)

/-- `ed25519.SignatureSize`. -/
def SignatureSize : Nat := 64

/-- `Handle.Decrypt`.  `verify` models `ed25519.Verify` (public key, message,
signature); `openBox` models `box.OpenAfterPrecomputation` (message, nonce,
shared key).  Faithful to the source's four distinct error strings. -/
def handleDecrypt (verify : List Nat → List Nat → List Nat → Bool)
    (openBox : List Nat → List Nat → List Nat → Option (List Nat))
    (h : Handle) (cyphertext : List Nat) (nonce : List Nat) :
    Except String (List Nat) :=
  match h.SharedSecret, h.SigningPublicKey with
  | some key, some pub =>
    if cyphertext.length < SignatureSize then .error "Invalid cyphertext"
    else
      let message := cyphertext.take (cyphertext.length - SignatureSize)
      let sig := cyphertext.drop (cyphertext.length - SignatureSize)
      if verify pub message sig then
        match openBox message nonce key with
        | some plaintext => .ok plaintext
        | none => .error "Failed to decrypt"
      else .error "Invalid Signature"
  | _, _ => .error "Handle improperly initialized"

/-- The pad-stripping prefix of `retrieveResponse`: one `drbg.Overlay` per
trust domain (`overlay` models the external `drbg.Overlay`). -/
def padStrip (overlay : List Nat → List Nat → List Nat)
    (args : ReadArgs) (data : List Nat) : List Nat :=
  args.TD.foldl (fun d td => overlay td.PadSeed d) data

/-- The scanning loop of `retrieveResponse`
(`for i := 0; i < len(data); i += dataSize`), with explicit fuel: each live
iteration decrypts one `dataSize` stride and returns the first success. -/
def scanLoop (dec : List Nat → Option (List Nat)) (dataSize : Nat)
    (data : List Nat) : Nat → Nat → Option (List Nat)
  | _, 0 => none
  | i, fuel + 1 =>
    if i < data.length then
      match dec ((data.drop i).take dataSize) with
      | some plaintext => some plaintext
      | none => scanLoop dec dataSize data (i + dataSize) fuel
    else none

/-- `Handle.retrieveResponse`: strip every trust domain's pad, then scan the
bucket in `dataSize` strides, attempting `Decrypt` at each stride with the
`PutUvarint`-encoded `Seqno` as nonce. -/
def retrieveResponse (verify : List Nat → List Nat → List Nat → Bool)
    (openBox : List Nat → List Nat → List Nat → Option (List Nat))
    (overlay : List Nat → List Nat → List Nat)
    (h : Handle) (args : ReadArgs) (replyData : List Nat) (dataSize : Nat) :
    Option (List Nat) :=
  let data := padStrip overlay args replyData
  let nonce := uvarint24 h.Seqno
  scanLoop (fun chunk => (handleDecrypt verify openBox h chunk nonce).toOption)
    dataSize data 0 (data.length + 1)

/-- Follows the spec's words, for comparison with `retrieveResponse`: the same
scan but with the nonce as `Seqno` "encoded as a fixed-width little-endian
value". -/
def retrieveResponseSpecLE (verify : List Nat → List Nat → List Nat → Bool)
    (openBox : List Nat → List Nat → List Nat → Option (List Nat))
    (overlay : List Nat → List Nat → List Nat)
    (h : Handle) (args : ReadArgs) (replyData : List Nat) (dataSize : Nat) :
    Option (List Nat) :=
  let data := padStrip overlay args replyData
  let nonce := le24 h.Seqno
  scanLoop (fun chunk => (handleDecrypt verify openBox h chunk nonce).toOption)
    dataSize data 0 (data.length + 1)

/-! ## Replica server (`src/server/replica/server.go`) -/

/-- `common.WriteArgs` (the fields the replica uses). -/
structure RWriteArgs where
  ID : Nat
  Data : List Nat
deriving DecidableEq

/-- The configuration fields the replica consumes. -/
structure RConfig where
  NumBuckets : Nat
  NumShardsPerGroup : Nat
  NumBucketsPerShard : Nat
  BucketDepth : Nat
  DataSize : Nat

/-- The pending message buffer `s.messages : map[uint64]*common.WriteArgs`. -/
def MsgStore : Type := Nat → Option RWriteArgs

/-- The replica state touched by the claims: the active snapshot ID, the
materialized shard buffers, and the pending message buffer.  (Locks, the
logger and the RPC plumbing carry no data relevant to any claim.) -/
structure ReplicaState where
  config : RConfig
  snapshotID : Nat
  shards : List (List Nat)
  messages : MsgStore

/-- `Server.Write`: reject with `"Invalid data size"` when
`len(args.Data) != config.DataSize`, otherwise store (insert or overwrite)
the message under its ID.  Returns the new buffer and `reply.Err`. -/
def writeStep (cfg : RConfig) (messages : MsgStore) (args : RWriteArgs) :
    MsgStore × String :=
  if args.Data.length ≠ cfg.DataSize then (messages, "Invalid data size")
  else (fun id => if id = args.ID then some args else messages id, "")

/-- The inner loop of `ApplyLayout` for one shard: resolve each entry ID of
the chunk against the pending buffer and concatenate
`msg.Data[:DataSize]`; `none` when some ID is missing. -/
def resolveChunk (messages : MsgStore) (dataSize : Nat) :
    List Nat → Option (List Nat)
  | [] => some []
  | id :: rest =>
    match messages id, resolveChunk messages dataSize rest with
    | some msg, some tail => some (msg.Data.take dataSize ++ tail)
    | _, _ => none

/-- The outer loop of `ApplyLayout` (`for i := 0; i < NumShardsPerGroup`),
building shards `start, start+1, …` for `count` iterations.  Each shard `i`
materializes layout positions `i*itemsPerShard … (i+1)*itemsPerShard - 1`. -/
def buildShardsFrom (messages : MsgStore) (dataSize itemsPerShard : Nat)
    (layout : List Nat) (start : Nat) : Nat → Option (List (List Nat))
  | 0 => some []
  | count + 1 =>
    match resolveChunk messages dataSize
        ((layout.drop (start * itemsPerShard)).take itemsPerShard),
      buildShardsFrom messages dataSize itemsPerShard layout (start + 1) count with
    | some shard, some rest => some (shard :: rest)
    | _, _ => none

/-- `Server.ApplyLayout`: builds the `NumShardsPerGroup` shard buffers from
the pending buffer; `none` (Go `nil`) when any referenced entry ID is
missing.  (The garbage collection of old messages is an unimplemented
`@todo` in the source; the buffer is never modified.) -/
def applyLayout (cfg : RConfig) (messages : MsgStore) (layout : List Nat) :
    Option (List (List Nat)) :=
  buildShardsFrom messages cfg.DataSize
    (cfg.NumBucketsPerShard * cfg.BucketDepth) layout 0 cfg.NumShardsPerGroup

/-- The entry IDs `ApplyLayout` dereferences: the first
`NumShardsPerGroup * itemsPerShard` layout positions. -/
def referencedIds (cfg : RConfig) (layout : List Nat) : List Nat :=
  layout.take (cfg.NumShardsPerGroup * (cfg.NumBucketsPerShard * cfg.BucketDepth))

/-- The outcome of the layout RPC in `GetLayout`, as seen by the replica:
either a transport error, one of the three validation errors, or success. -/
inductive LayoutErr
  | rpcFailure
  | invalidSnapshot
  | invalidIndex
  | invalidNumSplit
  | ok
deriving DecidableEq

/-- `layout.GetLayoutReply` (plus the transport-error case). -/
structure LayoutReply where
  Err : LayoutErr
  SnapshotID : Nat
  Layout : List Nat

/-- The completion of `Server.GetLayout` once the RPC reply for `snapshotID`
is in hand: on any error the state is untouched (the invalid-snapshot retry
spawns a fresh fetch and changes nothing here); on success the shards are
built with `ApplyLayout` and, only if that succeeds, `s.snapshotID` and
`s.shards` are overwritten. -/
def getLayoutStep (s : ReplicaState) (snapshotID : Nat) (reply : LayoutReply) :
    ReplicaState :=
  match reply.Err with
  | .ok =>
    match applyLayout s.config s.messages reply.Layout with
    | some shards => { s with snapshotID := snapshotID, shards := shards }
    | none => s
  | _ => s

/-! ## PIR shard batch read

The concrete read backend is not part of the sources (only its test,
`HelperTestShardRead`, is); the engine is modelled from the spec. -/

/-- Bit `j` of batch row `i` in the flat request buffer (row stride
`reqLength` bytes). -/
def reqBit (reqs : List Nat) (reqLength i j : Nat) : Bool :=
  Nat.testBit (reqs.getD (i * reqLength + j / 8) 0) (j % 8)

/-- Bucket `j` of the shard data, read as `bucketSize` contiguous bytes. -/
def bucketBytes (bucketSize : Nat) (data : List Nat) (j : Nat) : List Nat :=
  (data.drop (j * bucketSize)).take bucketSize

/-- Modelled from the spec: one row's running XOR, accumulated over a scan of
every bucket with select-via-multiply (mask `1` or `0` applied to every
bucket byte), never branching on the bit. -/
def rowScan (bucketSize numBuckets : Nat) (data : List Nat)
    (reqs : List Nat) (reqLength i : Nat) : List Nat :=
  (List.range numBuckets).foldl
    (fun acc j =>
      zipXor acc ((bucketBytes bucketSize data j).map
        (fun byte => (if reqBit reqs reqLength i j then 1 else 0) * byte)))
    (List.replicate bucketSize 0)

/-- Modelled from the spec: `Shard.Read` on a flat batch of request vectors
with row stride `reqLength`, producing the concatenation of per-row
results.  The number of buckets is `len(data) / bucketSize` and the batch
size is `len(reqs) / reqLength`, as in the backend interface. -/
def shardRead (bucketSize : Nat) (data reqs : List Nat) (reqLength : Nat) :
    List Nat :=
  let numBuckets := data.length / bucketSize
  let batch := reqs.length / reqLength
  ((List.range batch).map
    (fun i => rowScan bucketSize numBuckets data reqs reqLength i)).flatten

/-- The reference value of the claim: the byte-wise XOR of the data of every
bucket whose bit is set in row `i`. -/
def xorSelectedBuckets (bucketSize numBuckets : Nat) (data : List Nat)
    (reqs : List Nat) (reqLength i : Nat) : List Nat :=
  (List.range numBuckets).foldl
    (fun acc j =>
      if reqBit reqs reqLength i j then zipXor acc (bucketBytes bucketSize data j)
      else acc)
    (List.replicate bucketSize 0)

/-! ## Cuckoo table (`src/cuckootable/cuckootable.go`)

Bucket indices are Go `int`s, modelled as `Int` (the source never range
checks them against `0`, which matters for the `Contains` safety claim).
The `Comparable` payload interface is instantiated with `Nat` equality.
The eviction branch of `Insert` and the body of `removeFromBucket` are
missing from the source (`@todo` / empty bodies); they are modelled from
the spec and marked as such. -/

/-- `cuckootable.Entry` (payload `Data` instantiating `Comparable` with
`Nat` equality). -/
structure CEntry where
  Bucket1 : Int
  Bucket2 : Int
  Data : Nat
deriving DecidableEq

/-- `Entry.Equals`: payloads match and the bucket pairs match as unordered
pairs. -/
def centryEquals (e o : CEntry) : Bool :=
  e.Data == o.Data &&
    ((e.Bucket1 == o.Bucket1 && e.Bucket2 == o.Bucket2) ||
     (e.Bucket1 == o.Bucket2 && e.Bucket2 == o.Bucket1))

/-- `cuckootable.Bucket`: parallel `entries`/`filled` arrays; `entries[i]` is
meaningful only when `filled[i]` (entries hold `*Entry`, hence `Option`). -/
structure CBucket where
  entries : List (Option CEntry)
  filled : List Bool
deriving DecidableEq

/-- `cuckootable.Table`. -/
structure CTable where
  numBuckets : Int
  depth : Nat
  buckets : List CBucket
deriving DecidableEq

/-- `cuckootable.NewTable`. -/
def newTable (numBuckets : Int) (depth : Nat) : CTable :=
  { numBuckets := numBuckets
    depth := depth
    buckets := List.replicate numBuckets.toNat
      { entries := List.replicate depth none
        filled := List.replicate depth false } }

/-- Bucket `bi` of the table (total access; every use is guarded by a range
check mirroring the Go code's). -/
def bucketAt (t : CTable) (bi : Nat) : CBucket :=
  t.buckets.getD bi ⟨[], []⟩

/-- Whether an (optional) stored entry `Equals` the target. -/
def slotMatches (o : Option CEntry) (target : CEntry) : Bool :=
  match o with
  | some y => centryEquals y target
  | none => false

/-- The entry in slot `i` of bucket `bi` when that slot is filled. -/
def slotVal (t : CTable) (bi i : Nat) : Option CEntry :=
  if (bucketAt t bi).filled.getD i false then (bucketAt t bi).entries.getD i none
  else none

/-- The search loop of `Table.isInBucket` over slots `i < depth` of bucket
`bi` (already a `Nat` index). -/
def foundIn (t : CTable) (bi : Nat) (target : CEntry) : Bool :=
  (List.range t.depth).any (fun i => slotMatches (slotVal t bi i) target)

/-- `Table.isInBucket` with the Go array access made explicit: `none` models
the out-of-range fault of `t.buckets[bucketIndex]`. -/
def isInBucket (t : CTable) (bucketIndex : Int) (target : CEntry) :
    Option Bool :=
  if 0 ≤ bucketIndex ∧ bucketIndex.toNat < t.buckets.length then
    some (foundIn t bucketIndex.toNat target)
  else none

/-- `Table.Contains`: check `Bucket1` then `Bucket2`, each candidate searched
only when its index is below `numBuckets`; the Go `result || isInBucket(…)`
short-circuits, so a second lookup is not evaluated once a match was
found. -/
def containsE (t : CTable) (e : CEntry) : Option Bool :=
  let step : Bool → Int → Option Bool := fun result b =>
    if b < t.numBuckets then
      if result then some true else isInBucket t b e
    else some result
  match step false e.Bucket1 with
  | none => none
  | some r1 =>
    match step r1 e.Bucket2 with
    | none => none
    | some r2 => some r2

/-- Overwrite slot `i` of bucket `bi` with `x` and mark it filled. -/
def setSlot (t : CTable) (bi i : Nat) (x : CEntry) : CTable :=
  let b := bucketAt t bi
  let b2 : CBucket := ⟨b.entries.set i (some x), b.filled.set i true⟩
  { t with buckets := t.buckets.set bi b2 }

/-- `Table.tryInsertToBucket`: nothing happens unless `bucketIndex` is one of
the target's two candidate buckets; otherwise the target goes into the
first unfilled slot.  (The Go array access faults out of range; here an
out-of-range index is reported as a failed insert, which no theorem below
observes since all of them assume in-range candidates.) -/
def tryInsertToBucket (t : CTable) (bucketIndex : Int) (target : CEntry) :
    Option CTable :=
  if target.Bucket1 ≠ bucketIndex ∧ target.Bucket2 ≠ bucketIndex then none
  else if 0 ≤ bucketIndex ∧ bucketIndex.toNat < t.buckets.length then
    match (bucketAt t bucketIndex.toNat).filled.findIdx? (fun f => !f) with
    | some i => some (setSlot t bucketIndex.toNat i target)
    | none => none
  else none

/-- `Table.Insert`.  The source tries `Bucket1` then `Bucket2` and leaves the
eviction branch as `@todo`; the eviction is modelled from the spec: evict
the occupant of slot 0 of `Bucket1`, put the new entry in its place, and
recursively reinsert the victim, with the recursion depth bounded by
`fuel` (`CapacityFailure`, i.e. `none`, on exhaustion). -/
def insertE (t : CTable) (e : CEntry) : Nat → Option CTable
  | 0 =>
    match tryInsertToBucket t e.Bucket1 e with
    | some t2 => some t2
    | none =>
      match tryInsertToBucket t e.Bucket2 e with
      | some t2 => some t2
      | none => none
  | f + 1 =>
    match tryInsertToBucket t e.Bucket1 e with
    | some t2 => some t2
    | none =>
      match tryInsertToBucket t e.Bucket2 e with
      | some t2 => some t2
      | none =>
        if 0 ≤ e.Bucket1 ∧ e.Bucket1.toNat < t.buckets.length then
          match slotVal t e.Bucket1.toNat 0 with
          | some victim => insertE (setSlot t e.Bucket1.toNat 0 e) victim f
          | none => none
        else none

/-- Modelled from the spec: `removeFromBucket` has an empty body in the
source.  Clears (`filled[i] = false`) every slot of the bucket whose entry
`Equals` the target, per the source's doc comment ("removes all copies of
`target` … where all fields match").  An out-of-range index (a fault in
Go) leaves the table unchanged; no theorem below reaches that case. -/
def removeFromBucket (t : CTable) (bucketIndex : Int) (target : CEntry) :
    CTable :=
  if 0 ≤ bucketIndex ∧ bucketIndex.toNat < t.buckets.length then
    { t with buckets := (t.buckets.set bucketIndex.toNat
        ⟨(bucketAt t bucketIndex.toNat).entries,
         (List.range (bucketAt t bucketIndex.toNat).filled.length).map
           (fun i => (bucketAt t bucketIndex.toNat).filled.getD i false &&
             !(slotMatches
               ((bucketAt t bucketIndex.toNat).entries.getD i none)
               target))⟩) }
  else t

/-- `Table.Remove`: remove the target from both its candidate buckets. -/
def removeE (t : CTable) (target : CEntry) : CTable :=
  removeFromBucket (removeFromBucket t target.Bucket1 target) target.Bucket2 target

/-- Both candidate bucket indices of `e` are in range for `t`. -/
def validIdx (t : CTable) (e : CEntry) : Bool :=
  decide (0 ≤ e.Bucket1) && decide (e.Bucket1 < t.numBuckets) &&
  decide (0 ≤ e.Bucket2) && decide (e.Bucket2 < t.numBuckets)

/-- One bucket's well-formedness at index `bi`: the parallel arrays have
length `depth`, and every filled slot holds an entry with in-range
candidate buckets, resident in one of its own candidate buckets. -/
def bucketWF (t : CTable) (bi : Nat) : Bool :=
  let b := bucketAt t bi
  b.entries.length == t.depth && b.filled.length == t.depth &&
  (List.range t.depth).all (fun i =>
    !(b.filled.getD i false) ||
    (match b.entries.getD i none with
     | some y => validIdx t y && (y.Bucket1.toNat == bi || y.Bucket2.toNat == bi)
     | none => false))

/-- Table invariant: `numBuckets` non-negative and matching the bucket array,
every bucket well-formed.  `NewTable` establishes it and both the insert
path and removal preserve it. -/
def tableWF (t : CTable) : Bool :=
  decide (0 ≤ t.numBuckets) && t.buckets.length == t.numBuckets.toNat &&
  (List.range t.buckets.length).all (fun bi => bucketWF t bi)

/-- Membership of `x` through `Equals` in either of its own candidate
buckets: the property `Contains` decides on well-formed tables. -/
def presentE (t : CTable) (x : CEntry) : Bool :=
  foundIn t x.Bucket1.toNat x || foundIn t x.Bucket2.toNat x

/-! ## Generic list access helpers -/

theorem getD_set {α : Type} (l : List α) (i j : Nat) (a d : α) :
    (l.set i a).getD j d = if i = j ∧ i < l.length then a else l.getD j d := by
  simp only [List.getD_eq_getElem?_getD, List.getElem?_set]
  by_cases hij : i = j
  · subst hij
    by_cases hi : i < l.length
    · simp [hi]
    · simp [hi, List.getElem?_eq_none (Nat.not_lt.1 hi)]
  · simp [hij]

theorem getD_map_range {α : Type} (f : Nat → α) (n j : Nat) (d : α) :
    ((List.range n).map f).getD j d = if j < n then f j else d := by
  by_cases h : j < n
  · simp [List.getD_eq_getElem?_getD, List.getElem?_map, List.getElem?_range h, h]
  · have hnone : ((List.range n).map f)[j]? = none := by
      apply List.getElem?_eq_none
      simpa using Nat.not_lt.1 h
    simp [List.getD_eq_getElem?_getD, hnone, h]

theorem getD_replicate {α : Type} (a d : α) (n i : Nat) :
    (List.replicate n a).getD i d = if i < n then a else d := by
  simp only [List.getD_eq_getElem?_getD, List.getElem?_replicate]
  by_cases h : i < n <;> simp [h]

/-! ## Claim theorems: replica server -/

/-- C6: `Write` returns the size-mismatch error and leaves the buffer
unchanged exactly when `len(Data) ≠ DataSize`; otherwise it succeeds,
stores the entry under its ID, touches no other ID, and a second identical
write leaves the buffer unchanged. -/
theorem claim_C6 (cfg : RConfig) (m : MsgStore) (args : RWriteArgs) :
    (args.Data.length ≠ cfg.DataSize →
      writeStep cfg m args = (m, "Invalid data size")) ∧
    (args.Data.length = cfg.DataSize →
      (writeStep cfg m args).2 = "" ∧
      (writeStep cfg m args).1 args.ID = some args ∧
      (∀ id, id ≠ args.ID → (writeStep cfg m args).1 id = m id) ∧
      writeStep cfg (writeStep cfg m args).1 args = ((writeStep cfg m args).1, "")) := by
  constructor
  · intro hne
    simp [writeStep, hne]
  · intro heq
    refine ⟨by simp [writeStep, heq], by simp [writeStep, heq], ?_, ?_⟩
    · intro id hid
      simp [writeStep, heq, hid]
    · simp only [writeStep, heq]
      simp only [ne_eq, not_true_eq_false, if_false, ite_false]
      refine Prod.ext ?_ rfl
      funext id
      by_cases hid : id = args.ID <;> simp [hid]

/-- C6 witness at concrete inputs: a wrong-size write is rejected without
touching the buffer, and a correct-size write stores the entry. -/
theorem claim_C6_witness :
    writeStep ⟨1, 1, 1, 1, 2⟩ (fun _ => none) ⟨7, [1]⟩ =
      ((fun _ => none), "Invalid data size") ∧
    (writeStep ⟨1, 1, 1, 1, 2⟩ (fun _ => none) ⟨7, [1, 2]⟩).2 = "" ∧
    (writeStep ⟨1, 1, 1, 1, 2⟩ (fun _ => none) ⟨7, [1, 2]⟩).1 7 = some ⟨7, [1, 2]⟩ :=
  ⟨(claim_C6 ⟨1, 1, 1, 1, 2⟩ (fun _ => none) ⟨7, [1]⟩).1 (by decide),
   ((claim_C6 ⟨1, 1, 1, 1, 2⟩ (fun _ => none) ⟨7, [1, 2]⟩).2 (by decide)).1,
   ((claim_C6 ⟨1, 1, 1, 1, 2⟩ (fun _ => none) ⟨7, [1, 2]⟩).2 (by decide)).2.1⟩

/-- C9: the layout-apply path never removes or modifies any entry of the
pending message buffer, whether the apply succeeds or fails. -/
theorem claim_C9 (s : ReplicaState) (snapshotID : Nat) (reply : LayoutReply)
    (id : Nat) :
    (getLayoutStep s snapshotID reply).messages id = s.messages id := by
  unfold getLayoutStep
  cases reply.Err <;>
    first
      | rfl
      | (cases applyLayout s.config s.messages reply.Layout <;> rfl)

/-! ## Claim theorems: Decrypt error reporting (C4) -/

/-- A fully initialized handle used by the concrete counterexamples and
witnesses below. -/
def hInit : Handle :=
  ⟨⟨fun _ => 0, 0⟩, (0, 0), (0, 0), some [], some [], 0⟩

/-- C4 is false on the code: with the same verification and decryption
oracles, a ciphertext failing ed25519 verification yields
`"Invalid Signature"` while a ciphertext failing the AEAD open yields
`"Failed to decrypt"` — two distinguishable errors, not one generic one. -/
theorem claim_C4_counterexample :
    handleDecrypt (fun _ msg _ => msg.length == 1) (fun _ _ _ => none) hInit
        (List.replicate 65 0) [] = .error "Failed to decrypt" ∧
    handleDecrypt (fun _ msg _ => msg.length == 1) (fun _ _ _ => none) hInit
        (List.replicate 64 0) [] = .error "Invalid Signature" ∧
    ("Failed to decrypt" : String) ≠ "Invalid Signature" :=
  ⟨rfl, rfl, by decide⟩

/-- C4 (amended): on an initialized handle and a ciphertext long enough to
carry a signature, `Decrypt` reports signature-verification failure as
`"Invalid Signature"` and AEAD-open failure as `"Failed to decrypt"` —
two distinct errors rather than one undifferentiated decryption error. -/
theorem claim_C4 (verify : List Nat → List Nat → List Nat → Bool)
    (openBox : List Nat → List Nat → List Nat → Option (List Nat))
    (h : Handle) (ct nonce key pub : List Nat)
    (hk : h.SharedSecret = some key) (hp : h.SigningPublicKey = some pub)
    (hlen : SignatureSize ≤ ct.length) :
    (verify pub (ct.take (ct.length - SignatureSize))
        (ct.drop (ct.length - SignatureSize)) = false →
      handleDecrypt verify openBox h ct nonce = .error "Invalid Signature") ∧
    (verify pub (ct.take (ct.length - SignatureSize))
        (ct.drop (ct.length - SignatureSize)) = true →
      openBox (ct.take (ct.length - SignatureSize)) nonce key = none →
      handleDecrypt verify openBox h ct nonce = .error "Failed to decrypt") ∧
    ("Invalid Signature" : String) ≠ "Failed to decrypt" := by
  have hnl : ¬ ct.length < SignatureSize := Nat.not_lt.2 hlen
  refine ⟨?_, ?_, by decide⟩
  · intro hv
    simp [handleDecrypt, hk, hp, hnl, hv]
  · intro hv ho
    simp [handleDecrypt, hk, hp, hnl, hv, ho]

/-- C4 witness: the amended theorem applied at the counterexample's concrete
inputs. -/
theorem claim_C4_witness :
    handleDecrypt (fun _ _ _ => false) (fun _ _ _ => none) hInit
        (List.replicate 64 0) [] = .error "Invalid Signature" :=
  (claim_C4 (fun _ _ _ => false) (fun _ _ _ => none) hInit
      (List.replicate 64 0) [] [] [] rfl rfl (by decide)).1 rfl

/-! ## Claim theorems: GetLayout snapshot handling (C5) -/

/-- A tiny concrete replica configuration: one shard of one bucket of depth
one, one-byte messages. -/
def cfg1 : RConfig := ⟨1, 1, 1, 1, 1⟩

/-- A pending buffer holding the single message with ID 1. -/
def msgs1 : MsgStore := fun id => if id = 1 then some ⟨1, [0]⟩ else none

/-- A replica whose active snapshot is 5. -/
def st5 : ReplicaState := ⟨cfg1, 5, [], msgs1⟩

/-- A successful layout reply for the (superseded) snapshot 3. -/
def reply3 : LayoutReply := ⟨.ok, 3, [1]⟩

/-- C5 is false on the code: a replica at snapshot 5 completing a fetch for
the already-superseded snapshot 3 does not discard it — `GetLayout`
re-checks nothing before swapping, so the snapshot ID decreases from 5
to 3. -/
theorem claim_C5_counterexample :
    (getLayoutStep st5 3 reply3).snapshotID = 3 ∧ st5.snapshotID = 5 ∧
      (3 : Nat) < 5 :=
  ⟨rfl, rfl, by decide⟩

/-- C5 (amended): `GetLayout` performs no supersession re-check on
completion.  Any error reply leaves the state unchanged, a failed apply
leaves the state unchanged, but a successful fetch whose layout fully
resolves is swapped in unconditionally, setting `snapshotID` to the
requested value even when that value is below the current one — so the
replica's snapshot ID is not monotonic under `GetLayout`. -/
theorem claim_C5 (s : ReplicaState) (snapshotID : Nat) (reply : LayoutReply) :
    (reply.Err ≠ .ok → getLayoutStep s snapshotID reply = s) ∧
    (∀ shards, reply.Err = .ok →
      applyLayout s.config s.messages reply.Layout = some shards →
      getLayoutStep s snapshotID reply =
        { s with snapshotID := snapshotID, shards := shards }) ∧
    (reply.Err = .ok → applyLayout s.config s.messages reply.Layout = none →
      getLayoutStep s snapshotID reply = s) := by
  refine ⟨?_, ?_, ?_⟩
  · intro hne
    unfold getLayoutStep
    cases hE : reply.Err <;> simp_all
  · intro shards hok happ
    unfold getLayoutStep
    rw [hok, happ]
  · intro hok happ
    unfold getLayoutStep
    rw [hok, happ]

/-- C5 witness: the amended theorem applied at the counterexample's state
swaps snapshot 3 in over snapshot 5. -/
theorem claim_C5_witness :
    getLayoutStep st5 3 reply3 = { st5 with snapshotID := 3, shards := [[0]] } :=
  (claim_C5 st5 3 reply3).2.1 [[0]] rfl rfl

/-! ## Claim theorems: Contains safety (C10) -/

/-- C10: on a table whose bucket array matches `numBuckets`, `Contains` is
total for every entry with non-negative bucket indices — each candidate
index at or above `numBuckets` is skipped rather than dereferenced, and
when both candidates are out of range the result is `false` rather than a
fault. -/
theorem claim_C10 (t : CTable) (e : CEntry)
    (h1 : 0 ≤ e.Bucket1) (h2 : 0 ≤ e.Bucket2)
    (hlen : t.buckets.length = t.numBuckets.toNat) :
    ∃ r, containsE t e = some r ∧
      (t.numBuckets ≤ e.Bucket1 → t.numBuckets ≤ e.Bucket2 → r = false) := by
  by_cases c1 : e.Bucket1 < t.numBuckets <;>
    by_cases c2 : e.Bucket2 < t.numBuckets
  · have k1 : 0 ≤ e.Bucket1 ∧ e.Bucket1.toNat < t.buckets.length := ⟨h1, by omega⟩
    have k2 : 0 ≤ e.Bucket2 ∧ e.Bucket2.toNat < t.buckets.length := ⟨h2, by omega⟩
    by_cases f1 : foundIn t e.Bucket1.toNat e
    · exact ⟨true, by simp [containsE, isInBucket, c1, c2, k1, k2, f1], by omega⟩
    · refine ⟨foundIn t e.Bucket2.toNat e, ?_, by omega⟩
      simp [containsE, isInBucket, c1, c2, k1, k2, f1]
  · have k1 : 0 ≤ e.Bucket1 ∧ e.Bucket1.toNat < t.buckets.length := ⟨h1, by omega⟩
    by_cases f1 : foundIn t e.Bucket1.toNat e
    · exact ⟨true, by simp [containsE, isInBucket, c1, c2, k1, f1], by omega⟩
    · refine ⟨false, ?_, fun _ _ => rfl⟩
      simp [containsE, isInBucket, c1, c2, k1, f1]
  · have k2 : 0 ≤ e.Bucket2 ∧ e.Bucket2.toNat < t.buckets.length := ⟨h2, by omega⟩
    refine ⟨foundIn t e.Bucket2.toNat e, ?_, by omega⟩
    simp [containsE, isInBucket, c1, c2, k2]
  · exact ⟨false, by simp [containsE, c1, c2], fun _ _ => rfl⟩

/-- C10 witness: a 2-bucket table searched for an entry whose candidate
indices 5 and 7 are both out of range yields `some false` — total, no
fault. -/
theorem claim_C10_witness :
    ∃ r, containsE (newTable 2 1) ⟨5, 7, 3⟩ = some r ∧
      ((2 : Int) ≤ 5 → (2 : Int) ≤ 7 → r = false) :=
  claim_C10 (newTable 2 1) ⟨5, 7, 3⟩ (by decide) (by decide) (by decide)

/-! ## Claim theorems: ApplyLayout atomicity (C3) -/

theorem resolveChunk_isSome (m : MsgStore) (ds : Nat) (ids : List Nat) :
    (resolveChunk m ds ids).isSome = true ↔
      ∀ id ∈ ids, (m id).isSome = true := by
  induction ids with
  | nil => simp [resolveChunk]
  | cons id rest ih =>
    simp only [resolveChunk]
    cases hm : m id <;> cases hr : resolveChunk m ds rest <;>
      simp_all

theorem buildShardsFrom_isSome (m : MsgStore) (ds items : Nat)
    (layout : List Nat) :
    ∀ (count start : Nat),
      (buildShardsFrom m ds items layout start count).isSome = true ↔
        ∀ id ∈ (layout.drop (start * items)).take (count * items),
          (m id).isSome = true := by
  intro count
  induction count with
  | zero =>
    intro start
    simp [buildShardsFrom]
  | succ c ih =>
    intro start
    have hsplit : (layout.drop (start * items)).take ((c + 1) * items) =
        (layout.drop (start * items)).take items ++
          (layout.drop ((start + 1) * items)).take (c * items) := by
      have h1 : (c + 1) * items = items + c * items := by ring
      rw [h1, List.take_add, List.drop_drop]
      have h2 : start * items + items = (start + 1) * items := by ring
      rw [h2]
    simp only [buildShardsFrom]
    cases hc : resolveChunk m ds ((layout.drop (start * items)).take items) with
    | none =>
      have hmiss : ¬ ∀ id ∈ (layout.drop (start * items)).take items,
          (m id).isSome = true := by
        intro hall
        have := (resolveChunk_isSome m ds _).2 hall
        rw [hc] at this
        simp at this
      simp only [hsplit, List.mem_append]
      constructor
      · intro habs
        simp at habs
      · intro hall
        exact absurd (fun id hid => hall id (Or.inl hid)) hmiss
    | some shard =>
      have hchunk : ∀ id ∈ (layout.drop (start * items)).take items,
          (m id).isSome = true := by
        apply (resolveChunk_isSome m ds _).1
        rw [hc]
        rfl
      cases hb : buildShardsFrom m ds items layout (start + 1) c with
      | none =>
        have hrest := ih (start + 1)
        rw [hb] at hrest
        simp only [hsplit, List.mem_append]
        constructor
        · intro habs
          simp at habs
        · intro hall
          have : ∀ id ∈ (layout.drop ((start + 1) * items)).take (c * items),
              (m id).isSome = true := fun id hid => hall id (Or.inr hid)
          rw [← hrest] at this
          simp at this
      | some rest =>
        have hrest := (ih (start + 1)).1 (by rw [hb]; rfl)
        simp only [hsplit, List.mem_append]
        constructor
        · intro _ id hid
          cases hid with
          | inl hl => exact hchunk id hl
          | inr hr => exact hrest id hr
        · intro _
          rfl

/-- C3: on a successful fetch whose layout is long enough for the configured
shard count, `ApplyLayout` fails (returns `nil`) and the active snapshot
ID and shard buffers stay untouched whenever any referenced entry ID is
missing from the pending buffer, and the snapshot and shards are replaced
exactly when every referenced ID resolves. -/
theorem claim_C3 (s : ReplicaState) (snapshotID : Nat) (reply : LayoutReply)
    (hok : reply.Err = LayoutErr.ok)
    (hlen : s.config.NumShardsPerGroup *
        (s.config.NumBucketsPerShard * s.config.BucketDepth) ≤
        reply.Layout.length) :
    ((∃ id ∈ referencedIds s.config reply.Layout, s.messages id = none) →
      applyLayout s.config s.messages reply.Layout = none ∧
      getLayoutStep s snapshotID reply = s) ∧
    ((∀ id ∈ referencedIds s.config reply.Layout,
        (s.messages id).isSome = true) →
      ∃ shards, applyLayout s.config s.messages reply.Layout = some shards ∧
        getLayoutStep s snapshotID reply =
          { s with snapshotID := snapshotID, shards := shards }) := by
  have hiff := buildShardsFrom_isSome s.messages s.config.DataSize
    (s.config.NumBucketsPerShard * s.config.BucketDepth) reply.Layout
    s.config.NumShardsPerGroup 0
  rw [Nat.zero_mul, List.drop_zero] at hiff
  constructor
  · rintro ⟨id, hmem, hnone⟩
    have happ : applyLayout s.config s.messages reply.Layout = none := by
      rw [← Option.not_isSome_iff_eq_none]
      intro hsome
      have := (hiff.1 hsome) id hmem
      rw [hnone] at this
      simp at this
    refine ⟨happ, ?_⟩
    unfold getLayoutStep
    rw [hok, happ]
  · intro hall
    have hsome : (applyLayout s.config s.messages reply.Layout).isSome = true :=
      hiff.2 hall
    rcases Option.isSome_iff_exists.1 hsome with ⟨shards, happ⟩
    refine ⟨shards, happ, ?_⟩
    unfold getLayoutStep
    rw [hok, happ]

/-- C3 witness: with a one-shard configuration, the layout `[2]` references a
missing ID, so the apply fails and the state is untouched, while the
layout `[1]` fully resolves and the snapshot and shards are swapped. -/
theorem claim_C3_witness :
    (applyLayout cfg1 msgs1 [2] = none ∧
      getLayoutStep ⟨cfg1, 0, [], msgs1⟩ 9 ⟨.ok, 9, [2]⟩ =
        ⟨cfg1, 0, [], msgs1⟩) ∧
    ∃ shards, applyLayout cfg1 msgs1 [1] = some shards ∧
      getLayoutStep ⟨cfg1, 0, [], msgs1⟩ 9 ⟨.ok, 9, [1]⟩ =
        ⟨cfg1, 9, shards, msgs1⟩ :=
  ⟨(claim_C3 ⟨cfg1, 0, [], msgs1⟩ 9 ⟨.ok, 9, [2]⟩ rfl (by decide)).1
      ⟨2, by decide, rfl⟩,
   (claim_C3 ⟨cfg1, 0, [], msgs1⟩ 9 ⟨.ok, 9, [1]⟩ rfl (by decide)).2
      (by decide)⟩

/-! ## Claim theorems: PIR batch isolation (C2) -/

theorem foldl_congr_inv {α : Type} (P : α → Prop) (f g : α → Nat → α)
    (l : List Nat) (init : α) (hinit : P init)
    (hpres : ∀ a j, P a → j ∈ l → P (g a j))
    (heq : ∀ a j, P a → j ∈ l → f a j = g a j) :
    l.foldl f init = l.foldl g init := by
  induction l generalizing init with
  | nil => rfl
  | cons j rest ih =>
    simp only [List.foldl_cons]
    rw [heq init j hinit (by simp)]
    exact ih (g init j) (hpres init j hinit (by simp))
      (fun a k ha hk => hpres a k ha (by simp [hk]))
      (fun a k ha hk => heq a k ha (by simp [hk]))

theorem foldl_inv {α : Type} (P : α → Prop) (g : α → Nat → α)
    (l : List Nat) (init : α) (hinit : P init)
    (hpres : ∀ a j, P a → j ∈ l → P (g a j)) : P (l.foldl g init) := by
  induction l generalizing init with
  | nil => exact hinit
  | cons j rest ih =>
    simp only [List.foldl_cons]
    exact ih (g init j) (hpres init j hinit (by simp))
      (fun a k ha hk => hpres a k ha (by simp [hk]))

theorem bucketBytes_length (bucketSize nb : Nat) (data : List Nat)
    (hdata : data.length = nb * bucketSize) (j : Nat) (hj : j < nb) :
    (bucketBytes bucketSize data j).length = bucketSize := by
  have hmul : (j + 1) * bucketSize ≤ nb * bucketSize :=
    Nat.mul_le_mul_right bucketSize hj
  simp only [bucketBytes, List.length_take, List.length_drop, hdata]
  have : j * bucketSize + bucketSize ≤ nb * bucketSize := by
    calc j * bucketSize + bucketSize = (j + 1) * bucketSize := by ring
    _ ≤ nb * bucketSize := hmul
  omega

theorem map_zero_mul (l : List Nat) :
    l.map (fun byte => 0 * byte) = List.replicate l.length 0 := by
  induction l with
  | nil => rfl
  | cons x xs ih => simp [ih, List.replicate]

theorem rowScan_eq_xorSelected (bucketSize nb : Nat) (data reqs : List Nat)
    (reqLength i : Nat) (hdata : data.length = nb * bucketSize) :
    rowScan bucketSize nb data reqs reqLength i =
      xorSelectedBuckets bucketSize nb data reqs reqLength i := by
  unfold rowScan xorSelectedBuckets
  apply foldl_congr_inv (fun acc => acc.length = bucketSize)
  · simp
  · intro a j ha hj
    by_cases hb : reqBit reqs reqLength i j
    · rw [List.mem_range] at hj
      simp [hb, zipXor_length, ha, bucketBytes_length bucketSize nb data hdata j hj]
    · simpa [hb] using ha
  · intro a j ha hj
    rw [List.mem_range] at hj
    by_cases hb : reqBit reqs reqLength i j
    · simp only [hb, if_true]
      congr 1
      have hone : (bucketBytes bucketSize data j).map (fun byte => 1 * byte) =
          bucketBytes bucketSize data j := by
        simp
      simp [hone]
    · simp only [hb, Bool.false_eq_true, if_false]
      rw [map_zero_mul, bucketBytes_length bucketSize nb data hdata j hj,
        zipXor_zero a bucketSize ha]

theorem rowScan_length (bucketSize nb : Nat) (data reqs : List Nat)
    (reqLength i : Nat) (hdata : data.length = nb * bucketSize) :
    (rowScan bucketSize nb data reqs reqLength i).length = bucketSize := by
  unfold rowScan
  apply foldl_inv (fun acc : List Nat => acc.length = bucketSize)
  · simp
  · intro a j ha hj
    rw [List.mem_range] at hj
    simp [zipXor_length, ha, bucketBytes_length bucketSize nb data hdata j hj]

theorem flatten_slice (bs : Nat) :
    ∀ (rows : List (List Nat)) (i : Nat),
      (∀ r ∈ rows, r.length = bs) → i < rows.length →
      (rows.flatten.drop (i * bs)).take bs = rows.getD i [] := by
  intro rows
  induction rows with
  | nil =>
    intro i _ hi
    simp at hi
  | cons r rest ih =>
    intro i hlen hi
    cases i with
    | zero =>
      have hr : r.length = bs := hlen r (by simp)
      simp only [List.flatten_cons, Nat.zero_mul, List.drop_zero]
      rw [← hr, List.take_left]
      rfl
    | succ i2 =>
      have hsplit : (i2 + 1) * bs = r.length + i2 * bs := by
        rw [hlen r (by simp)]
        ring
      rw [List.flatten_cons, hsplit, List.drop_append]
      have := ih i2 (fun x hx => hlen x (by simp [hx])) (by simpa using hi)
      rw [this]
      rfl

/-- Modelled from the spec (reason recorded with the claim): C2 — for every
shard and batch, the response slice at offset `i` is exactly the byte-wise
XOR of the buckets selected by request vector `i`, and it is unchanged
under any modification of the batch that keeps row `i`'s bits (and the
batch geometry) the same. -/
theorem claim_C2 (bucketSize : Nat) (data reqs reqs2 : List Nat)
    (reqLength i : Nat) (hdvd : bucketSize ∣ data.length)
    (hi : i < reqs.length / reqLength) :
    ((shardRead bucketSize data reqs reqLength).drop (i * bucketSize)).take
        bucketSize =
      xorSelectedBuckets bucketSize (data.length / bucketSize) data reqs
        reqLength i ∧
    (reqs2.length = reqs.length →
      (∀ j, reqBit reqs2 reqLength i j = reqBit reqs reqLength i j) →
      ((shardRead bucketSize data reqs2 reqLength).drop
          (i * bucketSize)).take bucketSize =
        ((shardRead bucketSize data reqs reqLength).drop
            (i * bucketSize)).take bucketSize) := by
  have hdata : data.length = (data.length / bucketSize) * bucketSize :=
    (Nat.div_mul_cancel hdvd).symm
  have hslice : ∀ rq : List Nat, i < rq.length / reqLength →
      ((shardRead bucketSize data rq reqLength).drop (i * bucketSize)).take
          bucketSize =
        rowScan bucketSize (data.length / bucketSize) data rq reqLength i := by
    intro rq hirq
    unfold shardRead
    rw [flatten_slice bucketSize _ i ?hrows ?hilen]
    case hrows =>
      intro r hr
      rcases List.mem_map.1 hr with ⟨k, _, hk⟩
      rw [← hk]
      exact rowScan_length bucketSize _ data rq reqLength k hdata
    case hilen =>
      simpa using hirq
    rw [getD_map_range]
    simp [hirq]
  constructor
  · rw [hslice reqs hi]
    exact rowScan_eq_xorSelected bucketSize _ data reqs reqLength i hdata
  · intro hlen2 hbits
    have hi2 : i < reqs2.length / reqLength := by rw [hlen2]; exact hi
    rw [hslice reqs2 hi2, hslice reqs hi]
    unfold rowScan
    have hfun : (fun (acc : List Nat) (j : Nat) =>
        zipXor acc ((bucketBytes bucketSize data j).map
          (fun byte => (if reqBit reqs2 reqLength i j then 1 else 0) * byte))) =
        (fun (acc : List Nat) (j : Nat) =>
        zipXor acc ((bucketBytes bucketSize data j).map
          (fun byte => (if reqBit reqs reqLength i j then 1 else 0) * byte))) := by
      funext a j
      rw [hbits j]
    rw [hfun]

/-- C2 witness: the concrete scenario of the shard-read test — three buckets
of two bytes; row 2 selects buckets 0, 1 and 2 and receives their XOR. -/
theorem claim_C2_witness :
    ((shardRead 2 [1, 2, 3, 4, 5, 6] [2, 1, 7] 1).drop (2 * 2)).take 2 =
      xorSelectedBuckets 2 3 [1, 2, 3, 4, 5, 6] [2, 1, 7] 1 2 :=
  (claim_C2 2 [1, 2, 3, 4, 5, 6] [2, 1, 7] [2, 1, 7] 1 2 (by decide)
      (by decide)).1

/-! ## Claim theorems: retrieveResponse (C8) -/

theorem scanLoop_eq (dec : List Nat → Option (List Nat)) (ds : Nat)
    (data : List Nat) (hpos : 0 < ds) (n : Nat) (hn : data.length = n * ds) :
    ∀ fuel k, n - k ≤ fuel →
      scanLoop dec ds data (k * ds) fuel =
        ((List.range (n - k)).map (fun t => k + t)).findSome?
          (fun j => dec ((data.drop (j * ds)).take ds)) := by
  intro fuel
  induction fuel with
  | zero =>
    intro k hk
    have h0 : n - k = 0 := Nat.le_zero.1 hk
    rw [h0]
    rfl
  | succ f ih =>
    intro k hk
    by_cases hkn : k < n
    · have hlt : k * ds < data.length := by
        rw [hn]
        exact Nat.mul_lt_mul_of_lt_of_le hkn (Nat.le_refl ds) hpos
      have hnk : n - k = (n - (k + 1)) + 1 := by omega
      rw [hnk, List.range_succ_eq_map]
      simp only [List.map_cons, List.map_map, Nat.add_zero]
      rw [List.findSome?_cons]
      show scanLoop dec ds data (k * ds) (f + 1) = _
      unfold scanLoop
      rw [if_pos hlt]
      cases hd : dec ((data.drop (k * ds)).take ds) with
      | some pt => rfl
      | none =>
        have hrec := ih (k + 1) (by omega)
        have harith : k * ds + ds = (k + 1) * ds := by ring
        rw [harith, hrec]
        have hfun : ((fun t => k + t) ∘ Nat.succ) = fun t => (k + 1) + t := by
          funext t
          simp [Function.comp]
          omega
        rw [hfun]
    · have h0 : n - k = 0 := by omega
      have hge : ¬ k * ds < data.length := by
        rw [hn]
        intro hcon
        have := Nat.le_of_not_lt hkn
        exact absurd hcon (Nat.not_lt.2 (Nat.mul_le_mul_right ds this))
      rw [h0]
      unfold scanLoop
      rw [if_neg hge]
      rfl

/-- C8 (amended): `retrieveResponse` strips every trust domain's pad, scans
the stripped data in `dataSize` strides, attempts `Decrypt` at each stride
with the nonce being `Seqno` encoded by `binary.PutUvarint` into a zeroed
24-byte buffer (a varint, not a fixed-width little-endian value), and
returns the plaintext of the first stride whose decryption succeeds
(`none` when none succeeds). -/
theorem claim_C8 (verify : List Nat → List Nat → List Nat → Bool)
    (openBox : List Nat → List Nat → List Nat → Option (List Nat))
    (overlay : List Nat → List Nat → List Nat)
    (h : Handle) (args : ReadArgs) (replyData : List Nat) (dataSize : Nat)
    (hpos : 0 < dataSize)
    (hdvd : dataSize ∣ (padStrip overlay args replyData).length) :
    retrieveResponse verify openBox overlay h args replyData dataSize =
      (List.range
          ((padStrip overlay args replyData).length / dataSize)).findSome?
        (fun j => (handleDecrypt verify openBox h
            (((padStrip overlay args replyData).drop (j * dataSize)).take
              dataSize)
            (uvarint24 h.Seqno)).toOption) := by
  simp only [retrieveResponse]
  have hn : (padStrip overlay args replyData).length =
      ((padStrip overlay args replyData).length / dataSize) * dataSize :=
    (Nat.div_mul_cancel hdvd).symm
  have hfuel : (padStrip overlay args replyData).length / dataSize - 0 ≤
      (padStrip overlay args replyData).length + 1 := by
    have := Nat.div_le_self (padStrip overlay args replyData).length dataSize
    omega
  have := scanLoop_eq
    (fun chunk => (handleDecrypt verify openBox h chunk
      (uvarint24 h.Seqno)).toOption)
    dataSize (padStrip overlay args replyData) hpos
    ((padStrip overlay args replyData).length / dataSize) hn
    ((padStrip overlay args replyData).length + 1) 0 hfuel
  rw [Nat.zero_mul, Nat.sub_zero] at this
  rw [this]
  have hmap : (List.range
      ((padStrip overlay args replyData).length / dataSize)).map
        (fun t => 0 + t) =
      List.range ((padStrip overlay args replyData).length / dataSize) := by
    simp
  rw [hmap]

/-- The handle at sequence number 128, where the varint and little-endian
nonce encodings first diverge. -/
def h128 : Handle := ⟨⟨fun _ => 0, 0⟩, (0, 0), (0, 0), some [], some [], 128⟩

/-- An AEAD oracle that opens exactly under the little-endian nonce the spec
prescribes. -/
def openLE : List Nat → List Nat → List Nat → Option (List Nat) :=
  fun _ nonce _ => if nonce = le24 128 then some [9] else none

/-- C8 is false on the code: the nonce is `PutUvarint(Seqno)` (a varint), not
`Seqno` as a fixed-width little-endian value.  At `Seqno = 128` the two
encodings differ, and with an AEAD oracle keyed to the little-endian nonce
the code's scan recovers nothing while the spec's scan recovers the
message. -/
theorem claim_C8_counterexample :
    retrieveResponse (fun _ _ _ => true) openLE (fun _ d => d) h128 ⟨[]⟩
        (List.replicate 64 0) 64 = none ∧
    retrieveResponseSpecLE (fun _ _ _ => true) openLE (fun _ d => d) h128 ⟨[]⟩
        (List.replicate 64 0) 64 = some [9] ∧
    uvarint24 128 ≠ le24 128 := by
  refine ⟨rfl, rfl, by decide⟩

/-- C8 witness: the amended scan characterization applied at the
counterexample's concrete inputs. -/
theorem claim_C8_witness :
    retrieveResponse (fun _ _ _ => true) openLE (fun _ d => d) h128 ⟨[]⟩
        (List.replicate 64 0) 64 =
      (List.range
          ((padStrip (fun _ d => d) ⟨[]⟩ (List.replicate 64 0)).length /
            64)).findSome?
        (fun j => (handleDecrypt (fun _ _ _ => true) openLE h128
            (((padStrip (fun _ d => d) ⟨[]⟩
                (List.replicate 64 0)).drop (j * 64)).take 64)
            (uvarint24 h128.Seqno)).toOption) :=
  claim_C8 (fun _ _ _ => true) openLE (fun _ d => d) h128 ⟨[]⟩
    (List.replicate 64 0) 64 (by decide) (by decide)

/-! ## Claim theorems: multi-domain masking (C1) -/

theorem xorAll_cons (len : Nat) (a : List Nat) (l : List (List Nat)) :
    xorAll len (a :: l) = zipXor a (xorAll len l) := rfl

theorem oneHotVec_length (vecLen b : Nat) :
    (oneHotVec vecLen b).length = vecLen := by
  simp [oneHotVec]

theorem pollLoop_xor (vecLen : Nat) :
    ∀ (count : Nat) (d : Drbg) (acc : List Nat), acc.length = vecLen →
      xorAll vecLen ((pollLoop d vecLen acc count).1 ::
        (pollLoop d vecLen acc count).2.1.map PirArgs.RequestVector) = acc := by
  intro count
  induction count with
  | zero =>
    intro d acc hacc
    show xorAll vecLen [acc] = acc
    rw [xorAll_cons]
    show zipXor acc (List.replicate vecLen 0) = acc
    exact zipXor_zero acc vecLen hacc
  | succ c ih =>
    intro d acc hacc
    have hrvlen : (fillBytes d vecLen).1.length = vecLen := fillBytes_length d vecLen
    have hlen2 : (zipXor acc (fillBytes d vecLen).1).length = vecLen := by
      rw [zipXor_length, hacc, hrvlen, Nat.min_self]
    have hIH := ih (fillBytes (fillBytes d vecLen).2 SeedLength).2
      (zipXor acc (fillBytes d vecLen).1) hlen2
    simp only [pollLoop, List.map_cons, xorAll_cons] at hIH ⊢
    rw [← zipXor_assoc,
      zipXor_comm ((pollLoop (fillBytes (fillBytes d vecLen).2 SeedLength).2
        vecLen (zipXor acc (fillBytes d vecLen).1) c).1) (fillBytes d vecLen).1,
      zipXor_assoc, hIH, zipXor_comm acc (fillBytes d vecLen).1,
      zipXor_cancel (fillBytes d vecLen).1 acc (by rw [hrvlen, hacc])]

theorem bitAt_oneHotVec (vecLen b j : Nat) (hb : b < 8 * vecLen)
    (hj : j < 8 * vecLen) :
    bitAt (oneHotVec vecLen b) j = decide (j = b) := by
  have hbdiv : b / 8 < vecLen := by omega
  unfold bitAt oneHotVec
  simp only []
  rw [getD_set]
  simp only [List.length_replicate]
  by_cases hd : b / 8 = j / 8
  · rw [if_pos ⟨hd, hbdiv⟩, getD_replicate, if_pos hbdiv, Nat.zero_or,
      Nat.shiftLeft_eq, Nat.one_mul, Nat.testBit_two_pow]
    rw [decide_eq_decide]
    omega
  · rw [if_neg (by intro hcon; exact hd hcon.1), getD_replicate]
    have : Nat.testBit (if j / 8 < vecLen then 0 else 0) (j % 8) = false := by
      split <;> exact Nat.zero_testBit (j % 8)
    rw [this, decide_eq_false (by omega)]

/-- C1: for a fully initialized handle, at least one trust domain and a
positive bucket count, the byte-wise XOR of all trust domains' request
vectors of each `ReadArgs` produced by `generatePoll` is exactly the
one-hot vector of `ceil(NumBuckets/8)` bytes addressing the corresponding
bucket of `nextBuckets` at the handle's current `Seqno`: its bit `j` (for
every `j < NumBuckets`) is set exactly when `j` is that bucket. -/
theorem claim_C1 (sip : Nat → Nat → List Nat → Nat) (h : Handle)
    (numBuckets numTD : Nat)
    (hs : h.SharedSecret.isSome = true) (hp : h.SigningPublicKey.isSome = true)
    (htd : 1 ≤ numTD) (hb : 0 < numBuckets) :
    ∃ a0 a1 d, generatePoll sip h numBuckets numTD = some (a0, a1, d) ∧
      xorAll ((numBuckets + 7) / 8) (a0.TD.map PirArgs.RequestVector) =
        oneHotVec ((numBuckets + 7) / 8) (nextBuckets sip h numBuckets).1 ∧
      xorAll ((numBuckets + 7) / 8) (a1.TD.map PirArgs.RequestVector) =
        oneHotVec ((numBuckets + 7) / 8) (nextBuckets sip h numBuckets).2 ∧
      (∀ j, j < numBuckets →
        bitAt (xorAll ((numBuckets + 7) / 8)
          (a0.TD.map PirArgs.RequestVector)) j =
          decide (j = (nextBuckets sip h numBuckets).1)) ∧
      (∀ j, j < numBuckets →
        bitAt (xorAll ((numBuckets + 7) / 8)
          (a1.TD.map PirArgs.RequestVector)) j =
          decide (j = (nextBuckets sip h numBuckets).2)) := by
  have hnotnone : (h.SharedSecret.isNone || h.SigningPublicKey.isNone) = false := by
    cases hS : h.SharedSecret <;> cases hP : h.SigningPublicKey <;>
      simp_all
  have hxor : ∀ (d : Drbg) (b : Nat),
      xorAll ((numBuckets + 7) / 8)
        ((buildReadArgs d ((numBuckets + 7) / 8) numTD b).1.TD.map
          PirArgs.RequestVector) =
        oneHotVec ((numBuckets + 7) / 8) b := by
    intro d b
    show xorAll ((numBuckets + 7) / 8)
      ((pollLoop (fillBytes d SeedLength).2 ((numBuckets + 7) / 8)
          (oneHotVec ((numBuckets + 7) / 8) b) (numTD - 1)).1 ::
        (pollLoop (fillBytes d SeedLength).2 ((numBuckets + 7) / 8)
          (oneHotVec ((numBuckets + 7) / 8) b) (numTD - 1)).2.1.map
          PirArgs.RequestVector) = oneHotVec ((numBuckets + 7) / 8) b
    exact pollLoop_xor ((numBuckets + 7) / 8) (numTD - 1)
      (fillBytes d SeedLength).2 (oneHotVec ((numBuckets + 7) / 8) b)
      (oneHotVec_length ((numBuckets + 7) / 8) b)
  have hb1 : (nextBuckets sip h numBuckets).1 < numBuckets := Nat.mod_lt _ hb
  have hb2 : (nextBuckets sip h numBuckets).2 < numBuckets := Nat.mod_lt _ hb
  have hcap : numBuckets ≤ 8 * ((numBuckets + 7) / 8) := by omega
  refine ⟨(buildReadArgs h.drbg ((numBuckets + 7) / 8) numTD
      (nextBuckets sip h numBuckets).1).1,
    (buildReadArgs (buildReadArgs h.drbg ((numBuckets + 7) / 8) numTD
        (nextBuckets sip h numBuckets).1).2 ((numBuckets + 7) / 8) numTD
      (nextBuckets sip h numBuckets).2).1,
    (buildReadArgs (buildReadArgs h.drbg ((numBuckets + 7) / 8) numTD
        (nextBuckets sip h numBuckets).1).2 ((numBuckets + 7) / 8) numTD
      (nextBuckets sip h numBuckets).2).2, ?_, ?_, ?_, ?_, ?_⟩
  · simp only [generatePoll, hnotnone, Bool.false_eq_true, if_false]
  · exact hxor h.drbg (nextBuckets sip h numBuckets).1
  · exact hxor (buildReadArgs h.drbg ((numBuckets + 7) / 8) numTD
      (nextBuckets sip h numBuckets).1).2 (nextBuckets sip h numBuckets).2
  · intro j hj
    rw [hxor h.drbg (nextBuckets sip h numBuckets).1]
    exact bitAt_oneHotVec ((numBuckets + 7) / 8)
      (nextBuckets sip h numBuckets).1 j (by omega) (by omega)
  · intro j hj
    rw [hxor (buildReadArgs h.drbg ((numBuckets + 7) / 8) numTD
      (nextBuckets sip h numBuckets).1).2 (nextBuckets sip h numBuckets).2]
    exact bitAt_oneHotVec ((numBuckets + 7) / 8)
      (nextBuckets sip h numBuckets).2 j (by omega) (by omega)

/-- C1 witness: the masking identity at a concrete handle, hash, 8-bucket
configuration and two trust domains. -/
theorem claim_C1_witness :
    ∃ a0 a1 d,
      generatePoll (fun _ _ _ => 0) hInit 8 2 = some (a0, a1, d) ∧
      xorAll ((8 + 7) / 8) (a0.TD.map PirArgs.RequestVector) =
        oneHotVec ((8 + 7) / 8) (nextBuckets (fun _ _ _ => 0) hInit 8).1 ∧
      xorAll ((8 + 7) / 8) (a1.TD.map PirArgs.RequestVector) =
        oneHotVec ((8 + 7) / 8) (nextBuckets (fun _ _ _ => 0) hInit 8).2 ∧
      (∀ j, j < 8 →
        bitAt (xorAll ((8 + 7) / 8) (a0.TD.map PirArgs.RequestVector)) j =
          decide (j = (nextBuckets (fun _ _ _ => 0) hInit 8).1)) ∧
      (∀ j, j < 8 →
        bitAt (xorAll ((8 + 7) / 8) (a1.TD.map PirArgs.RequestVector)) j =
          decide (j = (nextBuckets (fun _ _ _ => 0) hInit 8).2)) :=
  claim_C1 (fun _ _ _ => 0) hInit 8 2 rfl rfl (by decide) (by decide)

/-! ## Claim theorems: cuckoo table Insert/Contains/Remove (C7) -/

theorem centryEquals_refl (e : CEntry) : centryEquals e e = true := by
  simp [centryEquals]

theorem centryEquals_decode (a b : CEntry) :
    centryEquals a b = true ↔
      a.Data = b.Data ∧
        ((a.Bucket1 = b.Bucket1 ∧ a.Bucket2 = b.Bucket2) ∨
         (a.Bucket1 = b.Bucket2 ∧ a.Bucket2 = b.Bucket1)) := by
  simp [centryEquals]

theorem centryEquals_trans (a b c : CEntry)
    (h1 : centryEquals a b = true) (h2 : centryEquals b c = true) :
    centryEquals a c = true := by
  rw [centryEquals_decode] at h1 h2 ⊢
  obtain ⟨hd1, hb1⟩ := h1
  obtain ⟨hd2, hb2⟩ := h2
  refine ⟨hd1.trans hd2, ?_⟩
  rcases hb1 with ⟨p1, p2⟩ | ⟨p1, p2⟩ <;> rcases hb2 with ⟨q1, q2⟩ | ⟨q1, q2⟩ <;>
    simp [p1, p2, q1, q2]

theorem setSlot_numBuckets (t : CTable) (bi i : Nat) (x : CEntry) :
    (setSlot t bi i x).numBuckets = t.numBuckets := rfl

theorem setSlot_depth (t : CTable) (bi i : Nat) (x : CEntry) :
    (setSlot t bi i x).depth = t.depth := rfl

theorem setSlot_buckets_length (t : CTable) (bi i : Nat) (x : CEntry) :
    (setSlot t bi i x).buckets.length = t.buckets.length := by
  simp [setSlot]

theorem bucketAt_setSlot_other (t : CTable) (bi i : Nat) (x : CEntry)
    (bj : Nat) (hne : bj ≠ bi) :
    bucketAt (setSlot t bi i x) bj = bucketAt t bj := by
  simp only [bucketAt, setSlot, getD_set]
  rw [if_neg]
  intro hcon
  exact hne hcon.1.symm

theorem bucketAt_setSlot_same (t : CTable) (bi i : Nat) (x : CEntry)
    (hbi : bi < t.buckets.length) :
    bucketAt (setSlot t bi i x) bi =
      ⟨(bucketAt t bi).entries.set i (some x),
       (bucketAt t bi).filled.set i true⟩ := by
  simp only [bucketAt, setSlot, getD_set]
  simp [hbi]

theorem filled_setSlot_same (t : CTable) (bi i : Nat) (x : CEntry)
    (hbi : bi < t.buckets.length) :
    (bucketAt (setSlot t bi i x) bi).filled =
      (bucketAt t bi).filled.set i true := by
  rw [bucketAt_setSlot_same t bi i x hbi]

theorem entries_setSlot_same (t : CTable) (bi i : Nat) (x : CEntry)
    (hbi : bi < t.buckets.length) :
    (bucketAt (setSlot t bi i x) bi).entries =
      (bucketAt t bi).entries.set i (some x) := by
  rw [bucketAt_setSlot_same t bi i x hbi]

theorem slotVal_setSlot (t : CTable) (bi i : Nat) (x : CEntry) (bj j : Nat)
    (hbi : bi < t.buckets.length)
    (hif : i < (bucketAt t bi).filled.length)
    (hie : i < (bucketAt t bi).entries.length) :
    slotVal (setSlot t bi i x) bj j =
      if bj = bi ∧ j = i then some x else slotVal t bj j := by
  by_cases hbj : bj = bi
  · subst hbj
    by_cases hji : j = i
    · subst hji
      rw [if_pos ⟨rfl, rfl⟩]
      unfold slotVal
      rw [filled_setSlot_same t bj j x hbi, entries_setSlot_same t bj j x hbi]
      have h1 : ((bucketAt t bj).filled.set j true).getD j false = true := by
        rw [getD_set, if_pos ⟨rfl, hif⟩]
      have h2 : ((bucketAt t bj).entries.set j (some x)).getD j none =
          some x := by
        rw [getD_set, if_pos ⟨rfl, hie⟩]
      rw [h1, h2, if_pos rfl]
    · rw [if_neg (fun hcon => hji hcon.2)]
      unfold slotVal
      rw [filled_setSlot_same t bj i x hbi, entries_setSlot_same t bj i x hbi]
      have h1 : ((bucketAt t bj).filled.set i true).getD j false =
          (bucketAt t bj).filled.getD j false := by
        rw [getD_set, if_neg (fun hcon => hji hcon.1.symm)]
      have h2 : ((bucketAt t bj).entries.set i (some x)).getD j none =
          (bucketAt t bj).entries.getD j none := by
        rw [getD_set, if_neg (fun hcon => hji hcon.1.symm)]
      rw [h1, h2]
  · rw [if_neg (fun hcon => hbj hcon.1)]
    unfold slotVal
    rw [bucketAt_setSlot_other t bi i x bj hbj]

theorem getD_false_of_true (l : List Bool) (i : Nat)
    (h : l.getD i false = true) : i < l.length := by
  by_contra hcon
  rw [List.getD_eq_getElem?_getD,
    List.getElem?_eq_none (Nat.not_lt.1 hcon)] at h
  simp at h

theorem slotVal_some_elim (t : CTable) (bi i : Nat) (y : CEntry)
    (h : slotVal t bi i = some y) :
    (bucketAt t bi).filled.getD i false = true ∧
      (bucketAt t bi).entries.getD i none = some y ∧
      i < (bucketAt t bi).filled.length := by
  unfold slotVal at h
  by_cases hf : (bucketAt t bi).filled.getD i false
  · rw [if_pos hf] at h
    exact ⟨hf, h, getD_false_of_true _ i hf⟩
  · rw [if_neg hf] at h
    simp at h

theorem findIdx_not_false (l : List Bool) :
    ∀ (s i : Nat), List.findIdx? (fun f => !f) l s = some i →
      s ≤ i ∧ i - s < l.length ∧ l.getD (i - s) false = false := by
  induction l with
  | nil =>
    intro s i h
    simp [List.findIdx?] at h
  | cons b bs ih =>
    intro s i h
    rw [List.findIdx?_cons] at h
    cases b with
    | false =>
      simp only [Bool.not_false, if_pos] at h
      have hsi : s = i := by
        injection h
      subst hsi
      exact ⟨Nat.le_refl s, by simp, by simp⟩
    | true =>
      simp only [Bool.not_true, Bool.false_eq_true, if_false] at h
      obtain ⟨hs, hrest, hget⟩ := ih (s + 1) i h
      refine ⟨by omega, by simp; omega, ?_⟩
      have hstep : i - s = (i - (s + 1)) + 1 := by omega
      rw [hstep]
      simpa using hget

/-- Proposition-level entry validity used by the insert invariant: in-range
candidate buckets and residence in the bucket `bi` where the entry was
found. -/
def entryOKP (t : CTable) (bi : Nat) (y : CEntry) : Prop :=
  0 ≤ y.Bucket1 ∧ y.Bucket1 < t.numBuckets ∧
  0 ≤ y.Bucket2 ∧ y.Bucket2 < t.numBuckets ∧
  (y.Bucket1.toNat = bi ∨ y.Bucket2.toNat = bi)

/-- Proposition form of the table invariant used through the insert
recursion. -/
def tableWFP (t : CTable) : Prop :=
  0 ≤ t.numBuckets ∧ t.buckets.length = t.numBuckets.toNat ∧
  ∀ bi, bi < t.buckets.length →
    (bucketAt t bi).entries.length = t.depth ∧
    (bucketAt t bi).filled.length = t.depth ∧
    ∀ i, i < t.depth → ∀ y, slotVal t bi i = some y → entryOKP t bi y

theorem tableWF_to_P (t : CTable) (h : tableWF t = true) : tableWFP t := by
  unfold tableWF at h
  simp only [Bool.and_eq_true, beq_iff_eq, decide_eq_true_eq,
    List.all_eq_true, List.mem_range] at h
  obtain ⟨⟨hnn, hlen⟩, hbuckets⟩ := h
  refine ⟨hnn, hlen, ?_⟩
  intro bi hbi
  have hbw := hbuckets bi hbi
  unfold bucketWF at hbw
  simp only [Bool.and_eq_true, beq_iff_eq, List.all_eq_true,
    List.mem_range] at hbw
  obtain ⟨⟨hel, hfl⟩, hslots⟩ := hbw
  refine ⟨hel, hfl, ?_⟩
  intro i hi y hy
  obtain ⟨hfill, hent, _⟩ := slotVal_some_elim t bi i y hy
  have hs := hslots i hi
  rw [hfill] at hs
  simp only [Bool.not_true, Bool.false_or] at hs
  rw [hent] at hs
  simp only [Bool.and_eq_true, Bool.or_eq_true, beq_iff_eq] at hs
  unfold validIdx at hs
  simp only [Bool.and_eq_true, decide_eq_true_eq] at hs
  exact ⟨hs.1.1.1.1, hs.1.1.1.2, hs.1.1.2, hs.1.2, hs.2⟩

theorem foundIn_intro (t : CTable) (bi : Nat) (x y : CEntry) (i : Nat)
    (hi : i < t.depth) (hy : slotVal t bi i = some y)
    (heq : centryEquals y x = true) : foundIn t bi x = true := by
  unfold foundIn
  rw [List.any_eq_true]
  refine ⟨i, List.mem_range.2 hi, ?_⟩
  rw [hy]
  exact heq

theorem foundIn_elim (t : CTable) (bi : Nat) (x : CEntry)
    (h : foundIn t bi x = true) :
    ∃ i, i < t.depth ∧ ∃ y, slotVal t bi i = some y ∧
      centryEquals y x = true := by
  unfold foundIn at h
  rw [List.any_eq_true] at h
  obtain ⟨i, hmem, hmatch⟩ := h
  refine ⟨i, List.mem_range.1 hmem, ?_⟩
  cases hs : slotVal t bi i with
  | none =>
    rw [hs] at hmatch
    simp [slotMatches] at hmatch
  | some y =>
    rw [hs] at hmatch
    exact ⟨y, rfl, hmatch⟩

theorem foundIn_congr_target (t : CTable) (bi : Nat) (v y : CEntry)
    (hvy : centryEquals v y = true) (h : foundIn t bi v = true) :
    foundIn t bi y = true := by
  obtain ⟨i, hi, z, hz, hzv⟩ := foundIn_elim t bi v h
  exact foundIn_intro t bi y z i hi hz (centryEquals_trans z v y hzv hvy)

theorem presentE_equals (t : CTable) (v y : CEntry)
    (hp : presentE t v = true) (hvy : centryEquals v y = true) :
    presentE t y = true := by
  have hbuckets := (centryEquals_decode v y).1 hvy
  unfold presentE at hp ⊢
  rw [Bool.or_eq_true] at hp ⊢
  rcases hbuckets with ⟨_, ⟨hb1, hb2⟩ | ⟨hb1, hb2⟩⟩ <;>
    rcases hp with hfound | hfound
  · exact Or.inl (by rw [← hb1]; exact foundIn_congr_target t _ v y hvy hfound)
  · exact Or.inr (by rw [← hb2]; exact foundIn_congr_target t _ v y hvy hfound)
  · exact Or.inr (by rw [← hb1]; exact foundIn_congr_target t _ v y hvy hfound)
  · exact Or.inl (by rw [← hb2]; exact foundIn_congr_target t _ v y hvy hfound)

theorem tryInsert_some (t : CTable) (b : Int) (x : CEntry) (t2 : CTable)
    (h : tryInsertToBucket t b x = some t2) :
    (x.Bucket1 = b ∨ x.Bucket2 = b) ∧ 0 ≤ b ∧ b.toNat < t.buckets.length ∧
    ∃ i, i < (bucketAt t b.toNat).filled.length ∧
      slotVal t b.toNat i = none ∧
      t2 = setSlot t b.toNat i x := by
  unfold tryInsertToBucket at h
  by_cases hc1 : x.Bucket1 ≠ b ∧ x.Bucket2 ≠ b
  · rw [if_pos hc1] at h
    simp at h
  · rw [if_neg hc1] at h
    by_cases hc2 : 0 ≤ b ∧ b.toNat < t.buckets.length
    · rw [if_pos hc2] at h
      cases hf : (bucketAt t b.toNat).filled.findIdx? (fun f => !f) with
      | none =>
        rw [hf] at h
        simp at h
      | some i =>
        rw [hf] at h
        have hspec := findIdx_not_false (bucketAt t b.toNat).filled 0 i hf
        rw [Nat.sub_zero] at hspec
        refine ⟨?_, hc2.1, hc2.2, i, hspec.2.1, ?_, ?_⟩
        · by_cases e1 : x.Bucket1 = b
          · exact Or.inl e1
          · by_cases e2 : x.Bucket2 = b
            · exact Or.inr e2
            · exact absurd ⟨e1, e2⟩ hc1
        · unfold slotVal
          rw [hspec.2.2]
          rfl
        · injection h with h2
          exact h2.symm
    · rw [if_neg hc2] at h
      simp at h

theorem tableWFP_setSlot (t : CTable) (bi i : Nat) (x : CEntry)
    (hwf : tableWFP t) (hbi : bi < t.buckets.length) (hi : i < t.depth)
    (hx1 : 0 ≤ x.Bucket1) (hx2 : x.Bucket1 < t.numBuckets)
    (hx3 : 0 ≤ x.Bucket2) (hx4 : x.Bucket2 < t.numBuckets)
    (hown : x.Bucket1.toNat = bi ∨ x.Bucket2.toNat = bi) :
    tableWFP (setSlot t bi i x) := by
  obtain ⟨hnn, hlen, hb⟩ := hwf
  have hif : i < (bucketAt t bi).filled.length := by
    rw [(hb bi hbi).2.1]
    exact hi
  have hie : i < (bucketAt t bi).entries.length := by
    rw [(hb bi hbi).1]
    exact hi
  refine ⟨hnn, by rw [setSlot_buckets_length]; exact hlen, ?_⟩
  intro bj hbj
  rw [setSlot_buckets_length] at hbj
  have hlj := hb bj hbj
  have hentlen : (bucketAt (setSlot t bi i x) bj).entries.length =
      (setSlot t bi i x).depth := by
    by_cases hbje : bj = bi
    · subst hbje
      rw [entries_setSlot_same t bj i x hbi, List.length_set, setSlot_depth]
      exact hlj.1
    · rw [bucketAt_setSlot_other t bi i x bj hbje, setSlot_depth]
      exact hlj.1
  have hfillen : (bucketAt (setSlot t bi i x) bj).filled.length =
      (setSlot t bi i x).depth := by
    by_cases hbje : bj = bi
    · subst hbje
      rw [filled_setSlot_same t bj i x hbi, List.length_set, setSlot_depth]
      exact hlj.2.1
    · rw [bucketAt_setSlot_other t bi i x bj hbje, setSlot_depth]
      exact hlj.2.1
  refine ⟨hentlen, hfillen, ?_⟩
  intro k hk y hy
  rw [setSlot_depth] at hk
  rw [slotVal_setSlot t bi i x bj k hbi hif hie] at hy
  by_cases hcase : bj = bi ∧ k = i
  · rw [if_pos hcase] at hy
    injection hy with hxy
    subst hxy
    exact ⟨hx1, hx2, hx3, hx4, by rw [hcase.1]; exact hown⟩
  · rw [if_neg hcase] at hy
    exact hlj.2.2 k hk y hy

theorem tryInsert_step (t : CTable) (b : Int) (x : CEntry) (t2 : CTable)
    (hwf : tableWFP t)
    (hx1 : 0 ≤ x.Bucket1) (hx2 : x.Bucket1 < t.numBuckets)
    (hx3 : 0 ≤ x.Bucket2) (hx4 : x.Bucket2 < t.numBuckets)
    (h : tryInsertToBucket t b x = some t2) :
    tableWFP t2 ∧ t2.numBuckets = t.numBuckets ∧ t2.depth = t.depth ∧
      t2.buckets.length = t.buckets.length ∧
      presentE t2 x = true ∧
      (∀ y, presentE t y = true → presentE t2 y = true) := by
  obtain ⟨hcand, hb0, hblt, i, hilen, hempty, ht2⟩ := tryInsert_some t b x t2 h
  have hdep : i < t.depth := by
    rw [← (hwf.2.2 b.toNat hblt).2.1]
    exact hilen
  have hown : x.Bucket1.toNat = b.toNat ∨ x.Bucket2.toNat = b.toNat := by
    rcases hcand with hc | hc
    · exact Or.inl (by rw [hc])
    · exact Or.inr (by rw [hc])
  have hie : i < (bucketAt t b.toNat).entries.length := by
    rw [(hwf.2.2 b.toNat hblt).1]
    exact hdep
  subst ht2
  refine ⟨tableWFP_setSlot t b.toNat i x hwf hblt hdep hx1 hx2 hx3 hx4 hown,
    rfl, rfl, setSlot_buckets_length t b.toNat i x, ?_, ?_⟩
  · have hslot : slotVal (setSlot t b.toNat i x) b.toNat i = some x := by
      rw [slotVal_setSlot t b.toNat i x b.toNat i hblt hilen hie,
        if_pos ⟨rfl, rfl⟩]
    have hfound : foundIn (setSlot t b.toNat i x) b.toNat x = true :=
      foundIn_intro _ b.toNat x x i (by rw [setSlot_depth]; exact hdep) hslot
        (centryEquals_refl x)
    unfold presentE
    rw [Bool.or_eq_true]
    rcases hown with ho | ho
    · exact Or.inl (by rw [ho]; exact hfound)
    · exact Or.inr (by rw [ho]; exact hfound)
  · intro y hy
    unfold presentE at hy ⊢
    rw [Bool.or_eq_true] at hy ⊢
    have hpres : ∀ bk, foundIn t bk y = true →
        foundIn (setSlot t b.toNat i x) bk y = true := by
      intro bk hf
      obtain ⟨k, hk, z, hz, hzy⟩ := foundIn_elim t bk y hf
      have hne : ¬(bk = b.toNat ∧ k = i) := by
        intro hcon
        rw [hcon.1, hcon.2, hempty] at hz
        cases hz
      refine foundIn_intro _ bk y z k (by rw [setSlot_depth]; exact hk) ?_ hzy
      rw [slotVal_setSlot t b.toNat i x bk k hblt hilen hie, if_neg hne]
      exact hz
    rcases hy with hf | hf
    · exact Or.inl (hpres _ hf)
    · exact Or.inr (hpres _ hf)

theorem insertE_spec :
    ∀ (fuel : Nat) (t : CTable) (x : CEntry) (t2 : CTable),
      tableWFP t →
      0 ≤ x.Bucket1 → x.Bucket1 < t.numBuckets →
      0 ≤ x.Bucket2 → x.Bucket2 < t.numBuckets →
      insertE t x fuel = some t2 →
      tableWFP t2 ∧ t2.numBuckets = t.numBuckets ∧ t2.depth = t.depth ∧
        t2.buckets.length = t.buckets.length ∧
        presentE t2 x = true ∧
        (∀ y, presentE t y = true → presentE t2 y = true) := by
  intro fuel
  induction fuel with
  | zero =>
    intro t x t2 hwf hx1 hx2 hx3 hx4 hins
    unfold insertE at hins
    cases h1 : tryInsertToBucket t x.Bucket1 x with
    | some tt =>
      rw [h1] at hins
      injection hins with he
      subst he
      exact tryInsert_step t x.Bucket1 x tt hwf hx1 hx2 hx3 hx4 h1
    | none =>
      rw [h1] at hins
      cases h2 : tryInsertToBucket t x.Bucket2 x with
      | some tt =>
        rw [h2] at hins
        injection hins with he
        subst he
        exact tryInsert_step t x.Bucket2 x tt hwf hx1 hx2 hx3 hx4 h2
      | none =>
        rw [h2] at hins
        cases hins
  | succ f ih =>
    intro t x t2 hwf hx1 hx2 hx3 hx4 hins
    unfold insertE at hins
    cases h1 : tryInsertToBucket t x.Bucket1 x with
    | some tt =>
      rw [h1] at hins
      injection hins with he
      subst he
      exact tryInsert_step t x.Bucket1 x tt hwf hx1 hx2 hx3 hx4 h1
    | none =>
      rw [h1] at hins
      cases h2 : tryInsertToBucket t x.Bucket2 x with
      | some tt =>
        rw [h2] at hins
        injection hins with he
        subst he
        exact tryInsert_step t x.Bucket2 x tt hwf hx1 hx2 hx3 hx4 h2
      | none =>
        rw [h2] at hins
        have hblt : x.Bucket1.toNat < t.buckets.length := by
          have := hwf.2.1
          omega
        rw [if_pos ⟨hx1, hblt⟩] at hins
        cases hv : slotVal t x.Bucket1.toNat 0 with
        | none =>
          rw [hv] at hins
          cases hins
        | some victim =>
          rw [hv] at hins
          have hfl := (hwf.2.2 x.Bucket1.toNat hblt).2.1
          have hel := (hwf.2.2 x.Bucket1.toNat hblt).1
          have h0f := slotVal_some_elim t x.Bucket1.toNat 0 victim hv
          have hdep0 : 0 < t.depth := by
            rw [← hfl]
            exact h0f.2.2
          have hif0 : 0 < (bucketAt t x.Bucket1.toNat).filled.length :=
            h0f.2.2
          have hie0 : 0 < (bucketAt t x.Bucket1.toNat).entries.length := by
            rw [hel]
            exact hdep0
          have hvic : entryOKP t x.Bucket1.toNat victim :=
            (hwf.2.2 x.Bucket1.toNat hblt).2.2 0 hdep0 victim hv
          have hwf1 : tableWFP (setSlot t x.Bucket1.toNat 0 x) :=
            tableWFP_setSlot t x.Bucket1.toNat 0 x hwf hblt hdep0
              hx1 hx2 hx3 hx4 (Or.inl rfl)
          obtain ⟨hv1, hv2, hv3, hv4, hvres⟩ := hvic
          obtain ⟨hwf2, hnum2, hdep2, hlen2, hpres2, hmono2⟩ :=
            ih (setSlot t x.Bucket1.toNat 0 x) victim t2 hwf1 hv1 hv2 hv3 hv4
              hins
          have hpx1 : presentE (setSlot t x.Bucket1.toNat 0 x) x = true := by
            have hslot : slotVal (setSlot t x.Bucket1.toNat 0 x)
                x.Bucket1.toNat 0 = some x := by
              rw [slotVal_setSlot t x.Bucket1.toNat 0 x x.Bucket1.toNat 0
                hblt hif0 hie0, if_pos ⟨rfl, rfl⟩]
            have hfound := foundIn_intro (setSlot t x.Bucket1.toNat 0 x)
              x.Bucket1.toNat x x 0 (by rw [setSlot_depth]; exact hdep0)
              hslot (centryEquals_refl x)
            unfold presentE
            rw [Bool.or_eq_true]
            exact Or.inl hfound
          refine ⟨hwf2, hnum2, hdep2,
            by rw [hlen2, setSlot_buckets_length], hmono2 x hpx1, ?_⟩
          intro y hy
          have hcase : ∀ bk, foundIn t bk y = true →
              (foundIn (setSlot t x.Bucket1.toNat 0 x) bk y = true ∨
                centryEquals victim y = true) := by
            intro bk hf
            obtain ⟨k, hk, z, hz, hzy⟩ := foundIn_elim t bk y hf
            by_cases hcol : bk = x.Bucket1.toNat ∧ k = 0
            · right
              rw [hcol.1, hcol.2, hv] at hz
              injection hz with hzv
              rw [← hzv] at hzy
              exact hzy
            · left
              refine foundIn_intro _ bk y z k
                (by rw [setSlot_depth]; exact hk) ?_ hzy
              rw [slotVal_setSlot t x.Bucket1.toNat 0 x bk k hblt hif0 hie0,
                if_neg hcol]
              exact hz
          unfold presentE at hy
          rw [Bool.or_eq_true] at hy
          rcases hy with hf | hf
          · rcases hcase y.Bucket1.toNat hf with hin | heq
            · refine hmono2 y ?_
              unfold presentE
              rw [Bool.or_eq_true]
              exact Or.inl hin
            · exact presentE_equals t2 victim y hpres2 heq
          · rcases hcase y.Bucket2.toNat hf with hin | heq
            · refine hmono2 y ?_
              unfold presentE
              rw [Bool.or_eq_true]
              exact Or.inr hin
            · exact presentE_equals t2 victim y hpres2 heq

theorem getD_of_ge {α : Type} (l : List α) (i : Nat) (d : α)
    (h : l.length ≤ i) : l.getD i d = d := by
  rw [List.getD_eq_getElem?_getD, List.getElem?_eq_none h]
  rfl

theorem removeFromBucket_numBuckets (t : CTable) (b : Int) (x : CEntry) :
    (removeFromBucket t b x).numBuckets = t.numBuckets := by
  unfold removeFromBucket
  split <;> rfl

theorem removeFromBucket_depth (t : CTable) (b : Int) (x : CEntry) :
    (removeFromBucket t b x).depth = t.depth := by
  unfold removeFromBucket
  split <;> rfl

theorem removeFromBucket_buckets_length (t : CTable) (b : Int) (x : CEntry) :
    (removeFromBucket t b x).buckets.length = t.buckets.length := by
  unfold removeFromBucket
  split
  · simp [List.length_set]
  · rfl

theorem bucketAt_removeFromBucket_same (t : CTable) (b : Int) (x : CEntry)
    (hc : 0 ≤ b) (hlt : b.toNat < t.buckets.length) :
    bucketAt (removeFromBucket t b x) b.toNat =
      ⟨(bucketAt t b.toNat).entries,
       (List.range (bucketAt t b.toNat).filled.length).map
         (fun i => (bucketAt t b.toNat).filled.getD i false &&
           !(slotMatches ((bucketAt t b.toNat).entries.getD i none) x))⟩ := by
  unfold removeFromBucket
  rw [if_pos ⟨hc, hlt⟩]
  unfold bucketAt
  simp only [getD_set]
  simp [hlt]

theorem bucketAt_removeFromBucket_other (t : CTable) (b : Int) (x : CEntry)
    (bj : Nat) (hne : bj ≠ b.toNat) :
    bucketAt (removeFromBucket t b x) bj = bucketAt t bj := by
  unfold removeFromBucket
  split
  · unfold bucketAt
    simp only [getD_set]
    rw [if_neg (fun hcon => hne hcon.1.symm)]
  · rfl

theorem slotVal_removeFromBucket_same (t : CTable) (b : Int) (x : CEntry)
    (hc : 0 ≤ b) (hlt : b.toNat < t.buckets.length) (j : Nat) :
    slotVal (removeFromBucket t b x) b.toNat j =
      if slotMatches (slotVal t b.toNat j) x then none
      else slotVal t b.toNat j := by
  unfold slotVal
  rw [bucketAt_removeFromBucket_same t b x hc hlt]
  simp only [getD_map_range]
  simp only [List.getD_eq_getElem?_getD]
  by_cases hj : j < (bucketAt t b.toNat).filled.length
  · rw [if_pos hj]
    by_cases hf : (bucketAt t b.toNat).filled[j]?.getD false = true
    · by_cases hm : slotMatches ((bucketAt t b.toNat).entries[j]?.getD none)
          x = true
      · simp [hf, hm]
      · simp [hf, hm]
    · have hf2 : (bucketAt t b.toNat).filled[j]?.getD false = false := by
        simpa using hf
      simp [hf2, slotMatches]
  · rw [if_neg hj]
    have hf2 : (bucketAt t b.toNat).filled[j]?.getD false = false := by
      rw [List.getElem?_eq_none (Nat.not_lt.1 hj)]
      rfl
    simp [hf2, slotMatches]

theorem slotVal_removeFromBucket_other (t : CTable) (b : Int) (x : CEntry)
    (bj j : Nat) (hne : bj ≠ b.toNat) :
    slotVal (removeFromBucket t b x) bj j = slotVal t bj j := by
  unfold slotVal
  rw [bucketAt_removeFromBucket_other t b x bj hne]

theorem foundIn_removeFromBucket_self (t : CTable) (b : Int) (x : CEntry)
    (hc : 0 ≤ b) (hlt : b.toNat < t.buckets.length) :
    foundIn (removeFromBucket t b x) b.toNat x = false := by
  cases hfi : foundIn (removeFromBucket t b x) b.toNat x with
  | false => rfl
  | true =>
    exfalso
    obtain ⟨i, hi, y, hy, hyx⟩ := foundIn_elim _ _ _ hfi
    rw [slotVal_removeFromBucket_same t b x hc hlt i] at hy
    by_cases hm : slotMatches (slotVal t b.toNat i) x = true
    · rw [if_pos hm] at hy
      cases hy
    · rw [if_neg hm] at hy
      rw [hy] at hm
      exact hm hyx

theorem foundIn_mono_remove (t : CTable) (b : Int) (x y : CEntry) (bj : Nat)
    (h : foundIn (removeFromBucket t b x) bj y = true) :
    foundIn t bj y = true := by
  obtain ⟨i, hi, z, hz, hzy⟩ := foundIn_elim _ _ _ h
  rw [removeFromBucket_depth] at hi
  by_cases hbj : bj = b.toNat
  · subst hbj
    by_cases hc : 0 ≤ b ∧ b.toNat < t.buckets.length
    · rw [slotVal_removeFromBucket_same t b x hc.1 hc.2 i] at hz
      by_cases hm : slotMatches (slotVal t b.toNat i) x = true
      · rw [if_pos hm] at hz
        cases hz
      · rw [if_neg hm] at hz
        exact foundIn_intro t b.toNat y z i hi hz hzy
    · have heq : removeFromBucket t b x = t := by
        unfold removeFromBucket
        rw [if_neg hc]
      rw [heq] at hz
      exact foundIn_intro t b.toNat y z i hi hz hzy
  · rw [slotVal_removeFromBucket_other t b x bj i hbj] at hz
    exact foundIn_intro t bj y z i hi hz hzy

theorem containsE_of_present (t : CTable) (e : CEntry)
    (hlen : t.buckets.length = t.numBuckets.toNat)
    (h1 : 0 ≤ e.Bucket1) (h1b : e.Bucket1 < t.numBuckets)
    (h2 : 0 ≤ e.Bucket2) (h2b : e.Bucket2 < t.numBuckets)
    (hp : presentE t e = true) : containsE t e = some true := by
  have k1 : 0 ≤ e.Bucket1 ∧ e.Bucket1.toNat < t.buckets.length :=
    ⟨h1, by omega⟩
  have k2 : 0 ≤ e.Bucket2 ∧ e.Bucket2.toNat < t.buckets.length :=
    ⟨h2, by omega⟩
  unfold presentE at hp
  rw [Bool.or_eq_true] at hp
  by_cases f1 : foundIn t e.Bucket1.toNat e = true
  · simp [containsE, isInBucket, h1b, h2b, k1, k2, f1]
  · have f2 : foundIn t e.Bucket2.toNat e = true := by
      rcases hp with hf | hf
      · exact absurd hf f1
      · exact hf
    simp [containsE, isInBucket, h1b, h2b, k1, k2, f1, f2]

/-- C7: after a successful `Insert` into a well-formed table (the eviction
branch and the removal body being modelled from the spec, as they are
missing from the source), `Contains` finds the entry; and after `Remove`,
`Contains` no longer finds it. -/
theorem claim_C7 (t : CTable) (e : CEntry) (fuel : Nat) (t2 : CTable)
    (hwf : tableWF t = true) (hv : validIdx t e = true)
    (hins : insertE t e fuel = some t2) :
    containsE t2 e = some true ∧
      containsE (removeE t2 e) e = some false := by
  have hwfp := tableWF_to_P t hwf
  unfold validIdx at hv
  simp only [Bool.and_eq_true, decide_eq_true_eq] at hv
  obtain ⟨⟨⟨h1, h2⟩, h3⟩, h4⟩ := hv
  obtain ⟨hwf2, hnum2, hdep2, hlen2, hpres2, hmono2⟩ :=
    insertE_spec fuel t e t2 hwfp h1 h2 h3 h4 hins
  have hlen2b : t2.buckets.length = t2.numBuckets.toNat := hwf2.2.1
  have he2 : e.Bucket1 < t2.numBuckets := by rw [hnum2]; exact h2
  have he4 : e.Bucket2 < t2.numBuckets := by rw [hnum2]; exact h4
  constructor
  · exact containsE_of_present t2 e hlen2b h1 he2 h3 he4 hpres2
  · have hblt1 : e.Bucket1.toNat < t2.buckets.length := by omega
    have hrm1len : (removeFromBucket t2 e.Bucket1 e).buckets.length =
        t2.buckets.length := removeFromBucket_buckets_length t2 e.Bucket1 e
    have hblt2 : e.Bucket2.toNat <
        (removeFromBucket t2 e.Bucket1 e).buckets.length := by
      rw [hrm1len]
      omega
    have hf2 : foundIn (removeE t2 e) e.Bucket2.toNat e = false :=
      foundIn_removeFromBucket_self (removeFromBucket t2 e.Bucket1 e)
        e.Bucket2 e h3 hblt2
    have hf1a : foundIn (removeFromBucket t2 e.Bucket1 e) e.Bucket1.toNat e =
        false := foundIn_removeFromBucket_self t2 e.Bucket1 e h1 hblt1
    have hf1 : foundIn (removeE t2 e) e.Bucket1.toNat e = false := by
      cases hfi : foundIn (removeE t2 e) e.Bucket1.toNat e with
      | false => rfl
      | true =>
        exfalso
        have := foundIn_mono_remove (removeFromBucket t2 e.Bucket1 e)
          e.Bucket2 e e e.Bucket1.toNat hfi
        rw [hf1a] at this
        cases this
    have hnumrm : (removeE t2 e).numBuckets = t2.numBuckets := by
      unfold removeE
      rw [removeFromBucket_numBuckets, removeFromBucket_numBuckets]
    have hlenrm : (removeE t2 e).buckets.length = t2.buckets.length := by
      unfold removeE
      rw [removeFromBucket_buckets_length, removeFromBucket_buckets_length]
    have c1 : e.Bucket1 < (removeE t2 e).numBuckets := by
      rw [hnumrm]
      exact he2
    have c2 : e.Bucket2 < (removeE t2 e).numBuckets := by
      rw [hnumrm]
      exact he4
    have k1 : 0 ≤ e.Bucket1 ∧
        e.Bucket1.toNat < (removeE t2 e).buckets.length := by
      rw [hlenrm]
      exact ⟨h1, by omega⟩
    have k2 : 0 ≤ e.Bucket2 ∧
        e.Bucket2.toNat < (removeE t2 e).buckets.length := by
      rw [hlenrm]
      exact ⟨h3, by omega⟩
    simp [containsE, isInBucket, c1, c2, k1, k2, hf1, hf2]

/-- The two-bucket depth-one table of the C7 witness and the result of the
successful insert of the entry `⟨0, 1, 5⟩` into it. -/
def t21ins : CTable :=
  match insertE (newTable 2 1) ⟨0, 1, 5⟩ 0 with
  | some t => t
  | none => newTable 2 1

/-- C7 witness: on the concrete table, the inserted entry is contained after
`Insert` and gone after `Remove`. -/
theorem claim_C7_witness :
    containsE t21ins ⟨0, 1, 5⟩ = some true ∧
      containsE (removeE t21ins ⟨0, 1, 5⟩) ⟨0, 1, 5⟩ = some false :=
  claim_C7 (newTable 2 1) ⟨0, 1, 5⟩ 0 t21ins (by decide) (by decide) (by decide)

/-! ## Sanity checks against the in-source test and standard encodings -/

/-- The scenario of `HelperTestShardRead`, shrunk to four two-byte buckets:
row 0 selects bucket 1, row 1 selects bucket 0, row 2 selects buckets
0, 1 and 2 and receives their byte-wise XOR. -/
theorem shardRead_matches_test :
    shardRead 2 [0, 1, 2, 3, 4, 5, 6, 7] [2, 1, 7] 1 = [2, 3, 0, 1, 6, 7] := by
  decide

/-- The modelled `binary.PutUvarint` agrees with Go's varint encoding on
representative values (including 128 and 300, the standard examples). -/
theorem uvarint_examples :
    uvarintBytes 0 = [0] ∧ uvarintBytes 127 = [127] ∧
      uvarintBytes 128 = [128, 1] ∧ uvarintBytes 300 = [172, 2] := by
  decide
